import Mathlib

/-!
Verification development for the lwIP PPP-over-Serial (PPPoS) byte framer
(src/netif/ppp/pppos.c).  The C code is shallowly embedded: machine
integers are natural numbers with explicit masking where the C code
masks, pbufs are lists of byte lists, and the RX framer is an explicit
state machine stepped one input byte at a time.

Configuration modelled: PPP_FCS_TABLE on (the table is also proved equal
to the bitwise fallback), VJ_SUPPORT off, PPP_INPROC_MULTITHREADED off,
IP_FORWARD and LWIP_IPV6_FORWARD off.  Buffer-pool allocation is driven
by an explicit boolean oracle so both the success and the failure branch
of the C code are represented.
-/

set_option maxRecDepth 100000

namespace Pppos

/-- PPP framing constants from ppp_impl.h, as used by pppos.c. -/
def PPP_FLAG : Nat := 0x7e

/-- Asynchronous control escape octet. -/
def PPP_ESCAPE : Nat := 0x7d

/-- Escape transposition mask. -/
def PPP_TRANS : Nat := 0x20

/-- All-stations address octet. -/
def PPP_ALLSTATIONS : Nat := 0xff

/-- Unnumbered-information control octet. -/
def PPP_UI : Nat := 0x03

/-- Initial FCS value. -/
def PPP_INITFCS : Nat := 0xffff

/-- Good final FCS value. -/
def PPP_GOODFCS : Nat := 0xf0b8

/-- Fixed pool-buffer payload capacity assumed by pppos_append and the
RX builder (lwipopts configuration constant). -/
def PBUF_POOL_BUFSIZE : Nat := 128

/-- FCS lookup table as calculated by genfcstab (fcstab in pppos.c). -/
def fcstab : List Nat := [
  0x0000, 0x1189, 0x2312, 0x329b, 0x4624, 0x57ad, 0x6536, 0x74bf,
  0x8c48, 0x9dc1, 0xaf5a, 0xbed3, 0xca6c, 0xdbe5, 0xe97e, 0xf8f7,
  0x1081, 0x0108, 0x3393, 0x221a, 0x56a5, 0x472c, 0x75b7, 0x643e,
  0x9cc9, 0x8d40, 0xbfdb, 0xae52, 0xdaed, 0xcb64, 0xf9ff, 0xe876,
  0x2102, 0x308b, 0x0210, 0x1399, 0x6726, 0x76af, 0x4434, 0x55bd,
  0xad4a, 0xbcc3, 0x8e58, 0x9fd1, 0xeb6e, 0xfae7, 0xc87c, 0xd9f5,
  0x3183, 0x200a, 0x1291, 0x0318, 0x77a7, 0x662e, 0x54b5, 0x453c,
  0xbdcb, 0xac42, 0x9ed9, 0x8f50, 0xfbef, 0xea66, 0xd8fd, 0xc974,
  0x4204, 0x538d, 0x6116, 0x709f, 0x0420, 0x15a9, 0x2732, 0x36bb,
  0xce4c, 0xdfc5, 0xed5e, 0xfcd7, 0x8868, 0x99e1, 0xab7a, 0xbaf3,
  0x5285, 0x430c, 0x7197, 0x601e, 0x14a1, 0x0528, 0x37b3, 0x263a,
  0xdecd, 0xcf44, 0xfddf, 0xec56, 0x98e9, 0x8960, 0xbbfb, 0xaa72,
  0x6306, 0x728f, 0x4014, 0x519d, 0x2522, 0x34ab, 0x0630, 0x17b9,
  0xef4e, 0xfec7, 0xcc5c, 0xddd5, 0xa96a, 0xb8e3, 0x8a78, 0x9bf1,
  0x7387, 0x620e, 0x5095, 0x411c, 0x35a3, 0x242a, 0x16b1, 0x0738,
  0xffcf, 0xee46, 0xdcdd, 0xcd54, 0xb9eb, 0xa862, 0x9af9, 0x8b70,
  0x8408, 0x9581, 0xa71a, 0xb693, 0xc22c, 0xd3a5, 0xe13e, 0xf0b7,
  0x0840, 0x19c9, 0x2b52, 0x3adb, 0x4e64, 0x5fed, 0x6d76, 0x7cff,
  0x9489, 0x8500, 0xb79b, 0xa612, 0xd2ad, 0xc324, 0xf1bf, 0xe036,
  0x18c1, 0x0948, 0x3bd3, 0x2a5a, 0x5ee5, 0x4f6c, 0x7df7, 0x6c7e,
  0xa50a, 0xb483, 0x8618, 0x9791, 0xe32e, 0xf2a7, 0xc03c, 0xd1b5,
  0x2942, 0x38cb, 0x0a50, 0x1bd9, 0x6f66, 0x7eef, 0x4c74, 0x5dfd,
  0xb58b, 0xa402, 0x9699, 0x8710, 0xf3af, 0xe226, 0xd0bd, 0xc134,
  0x39c3, 0x284a, 0x1ad1, 0x0b58, 0x7fe7, 0x6e6e, 0x5cf5, 0x4d7c,
  0xc60c, 0xd785, 0xe51e, 0xf497, 0x8028, 0x91a1, 0xa33a, 0xb2b3,
  0x4a44, 0x5bcd, 0x6956, 0x78df, 0x0c60, 0x1de9, 0x2f72, 0x3efb,
  0xd68d, 0xc704, 0xf59f, 0xe416, 0x90a9, 0x8120, 0xb3bb, 0xa232,
  0x5ac5, 0x4b4c, 0x79d7, 0x685e, 0x1ce1, 0x0d68, 0x3ff3, 0x2e7a,
  0xe70e, 0xf687, 0xc41c, 0xd595, 0xa12a, 0xb0a3, 0x8238, 0x93b1,
  0x6b46, 0x7acf, 0x4854, 0x59dd, 0x2d62, 0x3ceb, 0x0e70, 0x1ff9,
  0xf78f, 0xe606, 0xd49d, 0xc514, 0xb1ab, 0xa022, 0x92b9, 0x8330,
  0x7bc7, 0x6a4e, 0x58d5, 0x495c, 0x3de3, 0x2c6a, 0x1ef1, 0x0f78]

/-- HDLC polynomial used by the bitwise (table-free) FCS fallback. -/
def PPP_FCS_POLYNOMIAL : Nat := 0x8408

/-- One shift-xor round of the bitwise FCS computation in ppp_get_fcs. -/
def ppp_get_fcs_round (octet : Nat) : Nat :=
  if octet &&& 0x01 = 1 then (octet >>> 1) ^^^ PPP_FCS_POLYNOMIAL else octet >>> 1

/-- The eight-round bit loop of ppp_get_fcs, counting the remaining rounds. -/
def ppp_get_fcs_loop : Nat → Nat → Nat
  | 0, octet => octet
  | bit + 1, octet => ppp_get_fcs_loop bit (ppp_get_fcs_round octet)

/-- Bitwise per-byte FCS computation (ppp_get_fcs in pppos.c, compiled when
PPP_FCS_TABLE is disabled). -/
def ppp_get_fcs (byte : Nat) : Nat :=
  ppp_get_fcs_loop 8 byte &&& 0xffff

/-- Table-based FCS update macro PPP_FCS(fcs, c) from pppos.c. -/
def PPP_FCS (fcs c : Nat) : Nat :=
  (fcs >>> 8) ^^^ (fcstab.getD ((fcs ^^^ c) &&& 0xff) 0)

/-- Bitwise FCS update macro, the PPP_FCS variant compiled when
PPP_FCS_TABLE is disabled. -/
def PPP_FCS_bitwise (fcs c : Nat) : Nat :=
  (fcs >>> 8) ^^^ ppp_get_fcs ((fcs ^^^ c) &&& 0xff)

/-- Folded FCS over a byte list, seeded with an initial value. -/
def fcsFold (fcs : Nat) (bs : List Nat) : Nat := bs.foldl PPP_FCS fcs

/-- The ACCM bit-selection mask array ppp_accm_mask from pppos.c. -/
def ppp_accm_mask : List Nat := [0x01, 0x02, 0x04, 0x08, 0x10, 0x20, 0x40, 0x80]

/-- ESCAPE_P(accm, c): byte c is marked in the 32-byte ACCM. -/
def escape_p (accm : List Nat) (c : Nat) : Bool :=
  (accm.getD (c >>> 3) 0) &&& (ppp_accm_mask.getD (c &&& 0x07) 0) ≠ 0

/-- Default ACCM installed by pppos_connect: all bytes zero except index
15, which is forced to 0x60 so that 0x7d and 0x7e are always escaped. -/
def accmDefault : List Nat :=
  List.replicate 15 0 ++ [0x60] ++ List.replicate 16 0

/-- An ACCM is consistent when the two framing octets are marked and no
marked character has a marked escape image, so escape pairs decode
unambiguously on a receiver using the same map. -/
def accm_consistent (accm : List Nat) : Prop :=
  escape_p accm PPP_ESCAPE = true ∧ escape_p accm PPP_FLAG = true ∧
    ∀ c, c < 256 → escape_p accm c = true → escape_p accm (c ^^^ PPP_TRANS) = false

/-! ## TX side: pppos_append and the two output callbacks

A TX buffer chain is a list of pool buffers, each a list of stored
bytes; the last list is the pbuf the code calls the tail.  The chain is
`none` once an append has failed to allocate, mirroring a NULL tail
pointer, which every later pppos_append call propagates. -/

/-- Append bytes to the payload of the last buffer of a chain. -/
def appendLast (bs : List Nat) : List (List Nat) → List (List Nat)
  | [] => [bs]
  | [b] => [b ++ bs]
  | b :: rest => b :: appendLast bs rest

/-- Length of the tail buffer of a chain. -/
def lastLen (ch : List (List Nat)) : Nat := (ch.getLastD []).length

/-- The byte or escape pair that pppos_append stores for character c. -/
def escSeq (out_accm : Option (List Nat)) (c : Nat) : List Nat :=
  match out_accm with
  | some accm => if escape_p accm c then [PPP_ESCAPE, c ^^^ PPP_TRANS] else [c]
  | none => [c]

/-- pppos_append from pppos.c: append character c (escaped if out_accm is
given and marks it) to the tail buffer, first allocating and linking a
fresh buffer when fewer than two bytes are free.  The allocation outcome
is given by allocOk; on failure the tail becomes NULL (none). -/
def pppos_append (c : Nat) (nb : Option (List (List Nat)))
    (out_accm : Option (List Nat)) (allocOk : Bool) : Option (List (List Nat)) :=
  match nb with
  | none => none
  | some ch =>
    if PBUF_POOL_BUFSIZE - lastLen ch < 2 then
      if allocOk then some (appendLast (escSeq out_accm c) (ch ++ [[]]))
      else none
    else
      some (appendLast (escSeq out_accm c) ch)

/-- FCS-and-append step shared by the TX loops: update the running FCS
with the unescaped byte, then append the (possibly escaped) byte. -/
def txStep (out_accm : List Nat) (allocOk : Bool)
    (acc : Nat × Option (List (List Nat))) (c : Nat) :
    Nat × Option (List (List Nat)) :=
  (PPP_FCS acc.1 c, pppos_append c acc.2 (some out_accm) allocOk)

/-- pppos_link_netif_output_callback from pppos.c with VJ_SUPPORT off:
frame an outbound packet pb (a pbuf chain of byte lists) tagged with a
PPP protocol number.  accomp and pcomp are the negotiated ACFC and PFC
flags, idle tells whether sys_jiffies() - last_xmit reached
PPP_MAXIDLEFLAG.  Returns the framed chain, or none when an allocation
failed and the frame was dropped. -/
def pppos_link_netif_output_callback (allocOk : Bool) (accomp pcomp : Bool)
    (out_accm : List Nat) (idle : Bool) (protocol : Nat)
    (pb : List (List Nat)) : Option (List (List Nat)) :=
  let head : Option (List (List Nat)) := some [[]]
  let tail0 := if idle then pppos_append PPP_FLAG head none allocOk else head
  let acc1 : Nat × Option (List (List Nat)) :=
    if !accomp then
      txStep out_accm allocOk (txStep out_accm allocOk (PPP_INITFCS, tail0) PPP_ALLSTATIONS) PPP_UI
    else (PPP_INITFCS, tail0)
  let acc2 :=
    if !pcomp || decide (protocol > 0xff) then
      txStep out_accm allocOk acc1 ((protocol >>> 8) &&& 0xff)
    else acc1
  let acc3 := txStep out_accm allocOk acc2 (protocol &&& 0xff)
  let acc4 := pb.foldl (fun acc seg => seg.foldl (txStep out_accm allocOk) acc) acc3
  let tail5 := pppos_append ((acc4.1 ^^^ 0xffffffff) &&& 0xff) acc4.2 (some out_accm) allocOk
  let tail6 := pppos_append (((acc4.1 ^^^ 0xffffffff) >>> 8) &&& 0xff) tail5 (some out_accm) allocOk
  pppos_append PPP_FLAG tail6 none allocOk

/-- The byte sequence a framed TX chain puts on the wire. -/
def wireOf (res : Option (List (List Nat))) : List Nat := (res.getD []).flatten

/-- Wire bytes emitted by the netif output callback (empty if dropped). -/
def txWire (allocOk : Bool) (accomp pcomp : Bool) (out_accm : List Nat)
    (idle : Bool) (protocol : Nat) (pb : List (List Nat)) : List Nat :=
  wireOf (pppos_link_netif_output_callback allocOk accomp pcomp out_accm idle protocol pb)

/-- Logical (pre-escaping) link header bytes the netif TX path feeds to
the FCS and the escaper: optional address and control field, optional
protocol high byte, mandatory protocol low byte. -/
def hdrBytes (accomp pcomp : Bool) (protocol : Nat) : List Nat :=
  (if !accomp then [PPP_ALLSTATIONS, PPP_UI] else []) ++
    (if !pcomp || decide (protocol > 0xff) then [(protocol >>> 8) &&& 0xff] else []) ++
    [protocol &&& 0xff]

/-- The two FCS trailer bytes: one's complement of the accumulated FCS,
low byte first (the complement is taken on a 32-bit unsigned). -/
def fcsTrailer (fcs : Nat) : List Nat :=
  [(fcs ^^^ 0xffffffff) &&& 0xff, ((fcs ^^^ 0xffffffff) >>> 8) &&& 0xff]

/-- ACCM escaping of a whole logical byte sequence. -/
def escList (accm : List Nat) (bs : List Nat) : List Nat :=
  (bs.map (escSeq (some accm))).flatten

/-! ## RX side: the pppos_input state machine

RX pbufs carry an explicit tot_len field because pppos_input manipulates
it separately from len (len is the payload list length).  The in_head
and in_tail pointers of the C code can alias: either both are NULL, or
both point at the same single buffer, or in_head points at a chain of
already concatenated buffers while in_tail points at a separate buffer
not yet linked into that chain.  These are the only shapes the code
creates, and RxBufs represents exactly them. -/

/-- An RX pool buffer: stored bytes (len is the list length) and the
separately maintained tot_len field. -/
structure Rpbuf where
  payload : List Nat
  totLen : Nat
deriving DecidableEq, Repr

instance : Inhabited Rpbuf := ⟨⟨[], 0⟩⟩

/-- The RX decode states, in the order of the C enum. -/
inductive PD
  | PDIDLE
  | PDSTART
  | PDADDRESS
  | PDCONTROL
  | PDPROTOCOL1
  | PDPROTOCOL2
  | PDDATA
deriving DecidableEq, Repr

/-- Numeric value of an RX decode state, matching the C enum order, used
for the ordered comparisons in pppos_input. -/
def PD.val : PD → Nat
  | .PDIDLE => 0
  | .PDSTART => 1
  | .PDADDRESS => 2
  | .PDCONTROL => 3
  | .PDPROTOCOL1 => 4
  | .PDPROTOCOL2 => 5
  | .PDDATA => 6

/-- The in_head and in_tail pointers of ppp_pcb_rx. -/
inductive RxBufs
  | noBufs
  | single (b : Rpbuf)
  | headTail (ch : List Rpbuf) (t : Rpbuf)
deriving DecidableEq, Repr

/-- The RX framer state: the ppp_pcb_rx fields touched by pppos_input,
the link-statistics counters it bumps, the log of pbuf chains handed to
ppp_input, and a flag recording that the C code dereferenced in_tail
while it was NULL (after which the model is stuck). -/
structure RxState where
  inState : PD
  inFcs : Nat
  inProtocol : Nat
  inEscaped : Bool
  inAccm : List Nat
  bufs : RxBufs
  delivered : List (List Rpbuf)
  lenerr : Nat
  chkerr : Nat
  memerr : Nat
  droperr : Nat
  nullDeref : Bool
deriving DecidableEq, Repr

/-- Modelled from the spec: pbuf_cat (lwIP pbuf core, not under src/)
appends buffer t to chain ch, adding t's tot_len to the tot_len of every
buffer already in the chain, so tot_len stays cumulative on the head. -/
def pbuf_cat (ch : List Rpbuf) (t : Rpbuf) : List Rpbuf :=
  ch.map (fun b => { b with totLen := b.totLen + t.totLen }) ++ [t]

/-- Modelled from the spec: pbuf_realloc (lwIP pbuf core, not under
src/) shrinks a chain to a new total length: buffers wholly inside the
new length are kept with tot_len updated to the remaining length, the
buffer the new length ends in is truncated, and the rest are freed. -/
def pbuf_realloc_chain : List Rpbuf → Nat → List Rpbuf
  | [], _ => []
  | b :: rest, remLen =>
    if b.payload.length < remLen then
      { b with totLen := remLen } :: pbuf_realloc_chain rest (remLen - b.payload.length)
    else
      [{ payload := b.payload.take remLen, totLen := remLen }]

/-- The protocol prefix written into a fresh head buffer: the recovered
protocol number in big-endian byte order. -/
def protoBytes (p : Nat) : List Nat := [p >>> 8, p &&& 0xff]

/-- The checksum trim of the good-FCS delivery branch: drop the two
trailing FCS bytes from the tail (shrinking len and setting tot_len),
concatenate a separate tail into the head, and when the tail holds at
most two bytes shrink the whole chain through the head with
pbuf_realloc.  The result is the chain handed to ppp_input.  The C code
dereferences in_tail here, so the noBufs case never runs in C (it is a
null dereference, recorded by the caller). -/
def trimOut : RxBufs → List Rpbuf
  | .noBufs => []
  | .single b =>
    if b.payload.length > 2 then
      [{ payload := b.payload.take (b.payload.length - 2), totLen := b.payload.length - 2 }]
    else
      pbuf_realloc_chain [{ b with totLen := b.payload.length }] (b.payload.length - 2)
  | .headTail ch t =>
    if t.payload.length > 2 then
      pbuf_cat ch { payload := t.payload.take (t.payload.length - 2),
                    totLen := t.payload.length - 2 }
    else
      let ch2 := pbuf_cat ch { t with totLen := t.payload.length }
      pbuf_realloc_chain ch2 ((ch2.headD default).totLen - 2)

/-- The PDDATA storage step of pppos_input, allocation succeeding: make
space (concatenating a full tail into the head and allocating a fresh
tail, writing the protocol prefix into a fresh head), then store the
byte at the tail's len and bump len. -/
def storeByte (p c : Nat) : RxBufs → RxBufs
  | .noBufs => .single { payload := protoBytes p ++ [c], totLen := 0 }
  | .single b =>
    if b.payload.length = PBUF_POOL_BUFSIZE then
      .headTail [{ b with totLen := b.payload.length }] { payload := [c], totLen := 0 }
    else
      .single { b with payload := b.payload ++ [c] }
  | .headTail ch t =>
    if t.payload.length = PBUF_POOL_BUFSIZE then
      .headTail (pbuf_cat ch { t with totLen := t.payload.length }) { payload := [c], totLen := 0 }
    else
      .headTail ch { t with payload := t.payload ++ [c] }

/-- Whether the PDDATA case needs a fresh pool buffer for this byte
(in_tail NULL or the tail buffer full). -/
def needsAlloc : RxBufs → Bool
  | .noBufs => true
  | .single b => b.payload.length = PBUF_POOL_BUFSIZE
  | .headTail _ t => t.payload.length = PBUF_POOL_BUFSIZE

/-- The PDDATA case of pppos_input: store the byte, or on pool
exhaustion (allocOk false when a buffer is needed) bump memerr, drop the
partial frame (pppos_drop: free the chain and bump the drop counter) and
wait for a flag sequence in PDSTART. -/
def rx_data (allocOk : Bool) (st : RxState) (c : Nat) : RxState :=
  if needsAlloc st.bufs && !allocOk then
    { st with memerr := st.memerr + 1, droperr := st.droperr + 1,
              bufs := .noBufs, inState := .PDSTART }
  else
    { st with bufs := storeByte st.inProtocol c st.bufs }

/-- The PDPROTOCOL1 case: a set low bit ends the protocol field. -/
def rx_protocol1 (st : RxState) (c : Nat) : RxState :=
  if c &&& 1 = 1 then { st with inProtocol := c, inState := .PDDATA }
  else { st with inProtocol := c <<< 8, inState := .PDPROTOCOL2 }

/-- The PDCONTROL case, falling through to PDPROTOCOL1 on an invalid
control octet (the restart branch is compiled out in the source). -/
def rx_control (st : RxState) (c : Nat) : RxState :=
  if c = PPP_UI then { st with inState := .PDPROTOCOL1 } else rx_protocol1 st c

/-- The PDADDRESS case, falling through to PDCONTROL when the address
field is compressed away. -/
def rx_address (st : RxState) (c : Nat) : RxState :=
  if c = PPP_ALLSTATIONS then { st with inState := .PDCONTROL } else rx_control st c

/-- The PDSTART case: reset the FCS and fall through to PDADDRESS. -/
def rx_start (st : RxState) (c : Nat) : RxState :=
  rx_address { st with inFcs := PPP_INITFCS } c

/-- The PDIDLE case: drop anything that is not 0xff, else fall through
to PDSTART. -/
def rx_idle (st : RxState) (c : Nat) : RxState :=
  if c ≠ PPP_ALLSTATIONS then st else rx_start st c

/-- The state switch of pppos_input for one unescaped character. -/
def rx_switch (allocOk : Bool) (st : RxState) (c : Nat) : RxState :=
  match st.inState with
  | .PDIDLE => rx_idle st c
  | .PDSTART => rx_start st c
  | .PDADDRESS => rx_address st c
  | .PDCONTROL => rx_control st c
  | .PDPROTOCOL1 => rx_protocol1 st c
  | .PDPROTOCOL2 => { st with inProtocol := st.inProtocol ||| c, inState := .PDDATA }
  | .PDDATA => rx_data allocOk st c

/-- Frame termination on a FLAG character, then reset: ignore extra
flags before the header; drop incomplete frames with lenerr; drop bad
FCS frames with chkerr; otherwise trim the two FCS bytes off the tail
(via pbuf_realloc through the head when the tail holds at most two
bytes), hand the chain to ppp_input and clear in_head and in_tail.  The
good-FCS branch dereferences in_tail, so reaching it with no buffers is
recorded as a null dereference.  In every case the state machine is then
reset to PDADDRESS with a fresh FCS and in_escaped cleared. -/
def rx_flag (st : RxState) : RxState :=
  let st1 :=
    if st.inState.val ≤ PD.PDADDRESS.val then st
    else if st.inState.val < PD.PDDATA.val then
      { st with lenerr := st.lenerr + 1, droperr := st.droperr + 1, bufs := .noBufs }
    else if st.inFcs ≠ PPP_GOODFCS then
      { st with chkerr := st.chkerr + 1, droperr := st.droperr + 1, bufs := .noBufs }
    else
      match st.bufs with
      | .noBufs => { st with nullDeref := true }
      | b => { st with delivered := st.delivered ++ [trimOut b], bufs := .noBufs }
  { st1 with inFcs := PPP_INITFCS, inState := .PDADDRESS, inEscaped := false }

/-- The non-ACCM branch of pppos_input for one (already unescaped)
character: run the state switch, then update the running FCS with the
character, in every state. -/
def rx_logical (allocOk : Bool) (st : RxState) (c : Nat) : RxState :=
  let st1 := rx_switch allocOk { st with inEscaped := false } c
  { st1 with inFcs := PPP_FCS st1.inFcs c }

/-- One input character of pppos_input: consult the RX ACCM; marked
characters are the escape octet (set in_escaped), the flag octet
(terminate the frame) or line noise (dropped); unmarked characters are
unescaped if in_escaped was set and fed to the state switch. -/
def pppos_input_byte (allocOk : Bool) (st : RxState) (curChar : Nat) : RxState :=
  if st.nullDeref then st
  else if escape_p st.inAccm curChar then
    if curChar = PPP_ESCAPE then { st with inEscaped := true }
    else if curChar = PPP_FLAG then rx_flag st
    else st
  else
    rx_logical allocOk st (if st.inEscaped then curChar ^^^ PPP_TRANS else curChar)

/-- pppos_input: feed a byte list to the RX framer in order. -/
def pppos_input (allocOk : Bool) (st : RxState) (s : List Nat) : RxState :=
  s.foldl (pppos_input_byte allocOk) st

/-- The RX state right after pppos_connect: ppp_clear zeroes the rx
block (PDIDLE, fcs 0) and the connect code forces accm byte 15 to
0x60. -/
def rx_init (accm : List Nat) : RxState :=
  { inState := .PDIDLE, inFcs := 0, inProtocol := 0, inEscaped := false,
    inAccm := accm, bufs := .noBufs, delivered := [], lenerr := 0,
    chkerr := 0, memerr := 0, droperr := 0, nullDeref := false }

/-- The RX state after a FLAG has been processed: PDADDRESS with a fresh
FCS (the state every frame reception starts from). -/
def rx_ready (accm : List Nat) : RxState :=
  { rx_init accm with inState := .PDADDRESS, inFcs := PPP_INITFCS }

/-- Reachable RX states: the connect state and everything pppos_input
can produce from it by feeding bytes, under any allocation outcomes. -/
inductive RxReach (accm : List Nat) : RxState → Prop
  | init : RxReach accm (rx_init accm)
  | step (st : RxState) (c : Nat) (ok : Bool) (h : RxReach accm st)
      (hc : c < 256) : RxReach accm (pppos_input_byte ok st c)

/-- Flattened contents of an RX chain. -/
def flattenC (ch : List Rpbuf) : List Nat := (ch.map Rpbuf.payload).flatten

/-- Flattened contents of the RX buffers. -/
def flattenB : RxBufs → List Nat
  | .noBufs => []
  | .single b => b.payload
  | .headTail ch t => flattenC ch ++ t.payload

/-- Total number of bytes stored in the RX buffers (protocol prefix
included). -/
def storedLen (bufs : RxBufs) : Nat := (flattenB bufs).length

/-- An already concatenated head chain during DATA storage: every buffer
is full and tot_len fields are cumulative over the chain suffix. -/
def FullChain : List Rpbuf → Prop
  | [] => True
  | b :: rest => b.payload.length = PBUF_POOL_BUFSIZE ∧
      b.totLen = PBUF_POOL_BUFSIZE * (rest.length + 1) ∧ FullChain rest

/-- Shape invariant of the RX buffers while a frame body is stored for
protocol number p: a single head-and-tail buffer carries the two-byte
protocol prefix and at least one data byte within capacity, or a chain
of full concatenated buffers plus a separate nonempty tail; separate
tails and unfinished single buffers have a stale tot_len of 0. -/
def BufOk (p : Nat) : RxBufs → Prop
  | .noBufs => True
  | .single b => b.totLen = 0 ∧ 3 ≤ b.payload.length ∧
      b.payload.length ≤ PBUF_POOL_BUFSIZE ∧ b.payload.take 2 = protoBytes p
  | .headTail ch t => FullChain ch ∧ ch ≠ [] ∧ t.totLen = 0 ∧ 1 ≤ t.payload.length ∧
      t.payload.length ≤ PBUF_POOL_BUFSIZE ∧
      (ch.headD default).payload.take 2 = protoBytes p

/-- Global invariant of reachable RX states: buffers exist only in the
PDDATA state and then satisfy the shape invariant, and the recovered
protocol number is 16-bit. -/
def RxInv (st : RxState) : Prop :=
  (st.bufs ≠ .noBufs → st.inState = .PDDATA ∧ BufOk st.inProtocol st.bufs) ∧
    st.inProtocol < 65536

/-! ## pppos_link_write_callback and pppos_xmit -/

/-- Result of pppos_link_write_callback: the framed chain handed to
pppos_xmit (none when the frame was dropped for lack of buffers) and the
number of times the input pbuf p was freed. -/
structure WriteRes where
  out : Option (List (List Nat))
  pFreed : Nat
deriving DecidableEq, Repr

/-- pppos_link_write_callback from pppos.c: frame an already-built PPP
packet.  It reads p->payload for p->len bytes, that is, only the first
buffer of the chain p; it never follows p->next.  headAllocOk is the
outcome of the initial head allocation, allocOk drives the pppos_append
allocations, idle tells whether the leading flag is due. -/
def pppos_link_write_callback (headAllocOk allocOk : Bool) (out_accm : List Nat)
    (idle : Bool) (p : List (List Nat)) : WriteRes :=
  if !headAllocOk then { out := none, pFreed := 1 }
  else
    let s := p.headD []
    let head : Option (List (List Nat)) := some [[]]
    let tail0 := if idle then pppos_append PPP_FLAG head none allocOk else head
    let acc := s.foldl (txStep out_accm allocOk) (PPP_INITFCS, tail0)
    let tail1 := pppos_append ((acc.1 ^^^ 0xffffffff) &&& 0xff) acc.2 (some out_accm) allocOk
    let tail2 := pppos_append (((acc.1 ^^^ 0xffffffff) >>> 8) &&& 0xff) tail1 (some out_accm) allocOk
    let tail3 := pppos_append PPP_FLAG tail2 none allocOk
    match tail3 with
    | none => { out := none, pFreed := 1 }
    | some ch => { out := some ch, pFreed := 1 }

/-- Result of pppos_xmit: how many sio_write calls were made, the
link.err and link.xmit counter increments, whether last_xmit was zeroed
to force a leading flag on the next frame, and whether the chain was
freed. -/
structure XmitRes where
  calls : Nat
  errInc : Nat
  lastXmitZeroed : Bool
  xmitInc : Nat
  freed : Bool
deriving DecidableEq, Repr

/-- The segment loop of pppos_xmit from call index i on: write each
buffer of the chain; on a short write bump link.err, zero last_xmit,
free the chain and stop without retrying. -/
def pppos_xmit_from (sio : Nat → Nat) : Nat → List (List Nat) → XmitRes
  | i, [] => { calls := i, errInc := 0, lastXmitZeroed := false, xmitInc := 1, freed := true }
  | i, b :: rest =>
    if sio i ≠ b.length then
      { calls := i + 1, errInc := 1, lastXmitZeroed := true, xmitInc := 0, freed := true }
    else
      pppos_xmit_from sio (i + 1) rest

/-- pppos_xmit from pppos.c: hand the framed chain to the serial writer,
whose per-call return values are given by the oracle sio. -/
def pppos_xmit (sio : Nat → Nat) (nb : List (List Nat)) : XmitRes :=
  pppos_xmit_from sio 0 nb

/-- Valid PPP protocol numbers: 16-bit, low byte odd and high byte even
per RFC 1661, excluding the values the PPP assigned numbers reserve for
HDLC transparency (0x0003 to 0x001f, 0x007d, 0x00cf, 0x00ff), which
collide with the address, control and framing octets when both field
compressions are in effect. -/
def valid_protocol (p : Nat) : Prop :=
  p < 65536 ∧ p % 2 = 1 ∧ (p / 256) % 2 = 0 ∧
    ¬(3 ≤ p ∧ p ≤ 0x1f) ∧ p ≠ 0x7d ∧ p ≠ 0xcf ∧ p ≠ 0xff

instance (p : Nat) : Decidable (valid_protocol p) := by
  unfold valid_protocol; infer_instance

/-- Well-formed escaped byte stream: an escape octet is always followed
by a byte that unescapes to an ACCM-marked character and is itself
neither an escape nor a flag octet, and plain bytes are never the flag
octet. -/
def escWf (accm : List Nat) : List Nat → Prop
  | [] => True
  | [c] => c ≠ PPP_ESCAPE ∧ c ≠ PPP_FLAG
  | c :: d :: rest =>
    if c = PPP_ESCAPE then
      escape_p accm (d ^^^ PPP_TRANS) = true ∧ d ≠ PPP_ESCAPE ∧ d ≠ PPP_FLAG ∧
        escWf accm rest
    else c ≠ PPP_FLAG ∧ escWf accm (d :: rest)

/-! ## Basic lemmas about the TX chain builder -/

theorem appendLast_concat (bs x : List Nat) (ch : List (List Nat)) :
    appendLast bs (ch ++ [x]) = ch ++ [x ++ bs] := by
  induction ch with
  | nil => rfl
  | cons b rest ih =>
    cases rest with
    | nil => rfl
    | cons b' rest' => simpa [appendLast] using ih

theorem escList_cons (accm : List Nat) (b : Nat) (bs : List Nat) :
    escList accm (b :: bs) = escSeq (some accm) b ++ escList accm bs := rfl

theorem pppos_append_true (c : Nat) (ch : List (List Nat)) (accm : Option (List Nat)) :
    ∃ ch', pppos_append c (some ch) accm true = some ch' ∧ ch' ≠ [] ∧
      ch'.flatten = ch.flatten ++ escSeq accm c := by
  rcases List.eq_nil_or_concat ch with rfl | ⟨ch0, x, hx⟩
  · refine ⟨[escSeq accm c], ?_, by simp, by simp⟩
    simp [pppos_append, lastLen, PBUF_POOL_BUFSIZE, appendLast]
  · subst hx
    rw [List.concat_eq_append]
    by_cases h : PBUF_POOL_BUFSIZE - lastLen (ch0 ++ [x]) < 2
    · refine ⟨(ch0 ++ [x]) ++ [escSeq accm c], ?_, by simp, by simp⟩
      simp only [pppos_append, h, if_true, List.append_assoc]
      rw [show (ch0 ++ ([x] ++ [[]])) = (ch0 ++ [x]) ++ [([] : List Nat)] by simp]
      rw [appendLast_concat]
      simp
    · refine ⟨ch0 ++ [x ++ escSeq accm c], ?_, by simp, by simp⟩
      simp only [pppos_append, h, if_false]
      rw [appendLast_concat]

theorem txRun (accm : List Nat) (bs : List Nat) :
    ∀ (f : Nat) (ch : List (List Nat)),
    ∃ ch', bs.foldl (txStep accm true) (f, some ch) = (fcsFold f bs, some ch') ∧
      ch'.flatten = ch.flatten ++ escList accm bs := by
  induction bs with
  | nil => intro f ch; exact ⟨ch, by simp [fcsFold, escList], by simp [escList]⟩
  | cons b rest ih =>
    intro f ch
    obtain ⟨ch1, h1, hne1, hf1⟩ := pppos_append_true b ch (some accm)
    obtain ⟨ch', h2, hf2⟩ := ih (PPP_FCS f b) ch1
    refine ⟨ch', ?_, ?_⟩
    · simpa [txStep, h1, fcsFold] using h2
    · rw [hf2, hf1, escList_cons, List.append_assoc]

theorem fcsFold_append (f : Nat) (a b : List Nat) :
    fcsFold f (a ++ b) = fcsFold (fcsFold f a) b := List.foldl_append ..

theorem escList_append (accm : List Nat) (a b : List Nat) :
    escList accm (a ++ b) = escList accm a ++ escList accm b := by
  simp [escList]

theorem foldl_segments {α : Type} (g : α → Nat → α) (pb : List (List Nat)) :
    ∀ acc : α, pb.foldl (fun acc seg => seg.foldl g acc) acc = (pb.flatten).foldl g acc := by
  induction pb with
  | nil => intro acc; rfl
  | cons seg rest ih => intro acc; simp [List.foldl_append, ih]

theorem txFinish (accm : List Nat) (f : Nat) (ch : List (List Nat)) :
    ∃ ch', pppos_append PPP_FLAG
        (pppos_append (((f ^^^ 0xffffffff) >>> 8) &&& 0xff)
          (pppos_append ((f ^^^ 0xffffffff) &&& 0xff) (some ch) (some accm) true)
          (some accm) true) none true = some ch' ∧
      ch'.flatten = ch.flatten ++ escList accm (fcsTrailer f) ++ [PPP_FLAG] := by
  obtain ⟨c1, h1, _, hf1⟩ := pppos_append_true ((f ^^^ 0xffffffff) &&& 0xff) ch (some accm)
  rw [h1]
  obtain ⟨c2, h2, _, hf2⟩ := pppos_append_true (((f ^^^ 0xffffffff) >>> 8) &&& 0xff) c1 (some accm)
  rw [h2]
  obtain ⟨c3, h3, _, hf3⟩ := pppos_append_true PPP_FLAG c2 none
  rw [h3]
  refine ⟨c3, rfl, ?_⟩
  rw [hf3, hf2, hf1]
  simp [escList, fcsTrailer, escSeq, List.append_assoc]

/-! ## C9: FCS table against the bitwise computation -/

/-- C9: every entry of the 256-entry fcstab equals the value the bitwise
ppp_get_fcs loop computes for the same index, and consequently the
table-based PPP_FCS update and the bitwise PPP_FCS update agree on every
fcs value and input byte. -/
theorem c9_fcs_table_bitwise_equiv :
    (∀ i, i < 256 → fcstab.getD i 0 = ppp_get_fcs i) ∧
      ∀ fcs c, PPP_FCS fcs c = PPP_FCS_bitwise fcs c := by
  have htab : ∀ i, i < 256 → fcstab.getD i 0 = ppp_get_fcs i := by decide
  refine ⟨htab, fun fcs c => ?_⟩
  unfold PPP_FCS PPP_FCS_bitwise
  rw [htab ((fcs ^^^ c) &&& 0xff) (lt_of_le_of_lt Nat.and_le_right (by norm_num))]

/-- Witness for C9 at index 7 and at one concrete fcs update. -/
theorem c9_witness :
    fcstab.getD 7 0 = ppp_get_fcs 7 ∧ PPP_FCS 0xffff 0x42 = PPP_FCS_bitwise 0xffff 0x42 :=
  ⟨c9_fcs_table_bitwise_equiv.1 7 (by decide), c9_fcs_table_bitwise_equiv.2 0xffff 0x42⟩

/-! ## C5: pppos_append semantics -/

/-- C5: pppos_append with a non-null tail stores the escape pair 0x7d,
c xor 0x20 when the character is marked under the given ACCM and the
single byte c otherwise; when the tail buffer has fewer than 2 bytes
free it allocates a fresh buffer, links it after the old tail and stores
into it (so an escape pair is never split), and when that allocation
fails it returns a null tail having stored nothing. -/
theorem c5_append_semantics (c : Nat) (ch : List (List Nat)) (out_accm : Option (List Nat))
    (allocOk : Bool) (hne : ch ≠ []) :
    (PBUF_POOL_BUFSIZE - lastLen ch < 2 →
      (allocOk = true →
        pppos_append c (some ch) out_accm allocOk = some (ch ++ [escSeq out_accm c])) ∧
      (allocOk = false → pppos_append c (some ch) out_accm allocOk = none)) ∧
    (¬(PBUF_POOL_BUFSIZE - lastLen ch < 2) →
      pppos_append c (some ch) out_accm allocOk =
        some (ch.dropLast ++ [ch.getLast hne ++ escSeq out_accm c])) ∧
    (∀ a, out_accm = some a → escape_p a c = true →
      escSeq out_accm c = [PPP_ESCAPE, c ^^^ PPP_TRANS]) ∧
    (∀ a, out_accm = some a → escape_p a c = false → escSeq out_accm c = [c]) := by
  refine ⟨fun hfull => ⟨fun hok => ?_, fun hfail => ?_⟩, fun hroom => ?_,
    fun a ha hm => by simp [escSeq, ha, hm], fun a ha hm => by simp [escSeq, ha, hm]⟩
  · subst hok
    simp only [pppos_append, hfull, if_true]
    rw [show ch ++ [[]] = ch ++ [([] : List Nat)] from rfl, appendLast_concat]
    simp
  · subst hfail
    simp [pppos_append, hfull]
  · simp only [pppos_append, hroom, if_false]
    conv_lhs => rw [show ch = ch.dropLast ++ [ch.getLast hne] from (List.dropLast_append_getLast hne).symm]
    rw [appendLast_concat]

/-- Witness for C5: a tail with one free byte forces a fresh buffer for
an escaped store. -/
theorem c5_witness :
    pppos_append 0x7e (some [List.replicate 127 0]) (some accmDefault) true =
      some [List.replicate 127 0, [0x7d, 0x5e]] := by
  have h := (c5_append_semantics 0x7e [List.replicate 127 0] (some accmDefault) true
    (by simp)).1
  have hfull : PBUF_POOL_BUFSIZE - lastLen [List.replicate 127 0] < 2 := by decide
  have := (h hfull).1 rfl
  rw [this]
  norm_num [escSeq]
  decide

/-! ## C4: TX header, FCS and trailer emission -/

theorem netif_output_chain_eq (accomp pcomp idle : Bool) (accm : List Nat)
    (protocol : Nat) (pb : List (List Nat)) :
    ∃ chF, pppos_link_netif_output_callback true accomp pcomp accm idle protocol pb =
        some chF ∧
      chF.flatten = (if idle then [PPP_FLAG] else []) ++
        escList accm (hdrBytes accomp pcomp protocol ++ pb.flatten ++
          fcsTrailer (fcsFold (fcsFold PPP_INITFCS (hdrBytes accomp pcomp protocol))
            pb.flatten)) ++
        [PPP_FLAG] := by
  obtain ⟨ch0, hch0, hfl0⟩ :
      ∃ ch0, (if idle then pppos_append PPP_FLAG (some [[]]) none true
          else some ([[]] : List (List Nat))) = some ch0 ∧
        ch0.flatten = (if idle then [PPP_FLAG] else []) := by
    cases idle
    · exact ⟨[[]], rfl, rfl⟩
    · obtain ⟨ch0, h, _, hf⟩ := pppos_append_true PPP_FLAG [[]] none
      exact ⟨ch0, h, by simpa [escSeq] using hf⟩
  obtain ⟨ch1, hch1, hfl1⟩ := txRun accm (hdrBytes accomp pcomp protocol) PPP_INITFCS ch0
  obtain ⟨ch2, hch2, hfl2⟩ := txRun accm pb.flatten
    (fcsFold PPP_INITFCS (hdrBytes accomp pcomp protocol)) ch1
  obtain ⟨chF, hchF, hflF⟩ := txFinish accm
    (fcsFold (fcsFold PPP_INITFCS (hdrBytes accomp pcomp protocol)) pb.flatten) ch2
  rcases accomp with _ | _ <;> by_cases hP : (!pcomp || decide (protocol > 0xff)) = true
  · have hhdr : hdrBytes false pcomp protocol =
        [PPP_ALLSTATIONS, PPP_UI, (protocol >>> 8) &&& 0xff, protocol &&& 0xff] := by
      simp [hdrBytes, hP]
    rw [hhdr] at hch1 hch2 hchF
    simp only [List.foldl_cons, List.foldl_nil] at hch1
    refine ⟨chF, ?_, ?_⟩
    · simp only [pppos_link_netif_output_callback, hch0, hP, Bool.not_false, Bool.not_true,
        Bool.false_eq_true, Bool.true_eq_false, if_true, if_false, ite_true, ite_false]
      rw [hch1, foldl_segments, hch2]
      exact hchF
    · rw [hflF, hfl2, hfl1, hfl0, hhdr, escList_append, escList_append]
      simp [List.append_assoc]
  · simp only [Bool.not_eq_true] at hP
    have hhdr : hdrBytes false pcomp protocol =
        [PPP_ALLSTATIONS, PPP_UI, protocol &&& 0xff] := by
      simp [hdrBytes, hP]
    rw [hhdr] at hch1 hch2 hchF
    simp only [List.foldl_cons, List.foldl_nil] at hch1
    refine ⟨chF, ?_, ?_⟩
    · simp only [pppos_link_netif_output_callback, hch0, hP, Bool.not_false, Bool.not_true,
        Bool.false_eq_true, Bool.true_eq_false, if_true, if_false, ite_true, ite_false]
      rw [hch1, foldl_segments, hch2]
      exact hchF
    · rw [hflF, hfl2, hfl1, hfl0, hhdr, escList_append, escList_append]
      simp [List.append_assoc]
  · have hhdr : hdrBytes true pcomp protocol =
        [(protocol >>> 8) &&& 0xff, protocol &&& 0xff] := by
      simp [hdrBytes, hP]
    rw [hhdr] at hch1 hch2 hchF
    simp only [List.foldl_cons, List.foldl_nil] at hch1
    refine ⟨chF, ?_, ?_⟩
    · simp only [pppos_link_netif_output_callback, hch0, hP, Bool.not_false, Bool.not_true,
        Bool.false_eq_true, Bool.true_eq_false, if_true, if_false, ite_true, ite_false]
      rw [hch1, foldl_segments, hch2]
      exact hchF
    · rw [hflF, hfl2, hfl1, hfl0, hhdr, escList_append, escList_append]
      simp [List.append_assoc]
  · simp only [Bool.not_eq_true] at hP
    have hhdr : hdrBytes true pcomp protocol = [protocol &&& 0xff] := by
      simp [hdrBytes, hP]
    rw [hhdr] at hch1 hch2 hchF
    simp only [List.foldl_cons, List.foldl_nil] at hch1
    refine ⟨chF, ?_, ?_⟩
    · simp only [pppos_link_netif_output_callback, hch0, hP, Bool.not_false, Bool.not_true,
        Bool.false_eq_true, Bool.true_eq_false, if_true, if_false, ite_true, ite_false]
      rw [hch1, foldl_segments, hch2]
      exact hchF
    · rw [hflF, hfl2, hfl1, hfl0, hhdr, escList_append, escList_append]
      simp [List.append_assoc]

/-- C4: on the netif TX path the address and control bytes 0xff 0x03 are
folded into the FCS and emitted (ACCM-escaped) exactly when ACFC is not
negotiated; the protocol high byte is folded and emitted exactly when
PFC is not negotiated or the protocol exceeds 0xff, the low byte always;
after the payload the complement of the accumulated FCS is emitted low
byte first (complement taken once, on the final value), ACCM-escaped;
and the closing flag is emitted unescaped. -/
theorem c4_tx_emission (accomp pcomp idle : Bool) (accm : List Nat) (protocol : Nat)
    (pb : List (List Nat)) :
    txWire true accomp pcomp accm idle protocol pb =
      (if idle then [PPP_FLAG] else []) ++
        escList accm (hdrBytes accomp pcomp protocol ++ pb.flatten ++
          fcsTrailer (fcsFold PPP_INITFCS (hdrBytes accomp pcomp protocol ++ pb.flatten))) ++
        [PPP_FLAG] := by
  obtain ⟨chF, hF, hfl⟩ := netif_output_chain_eq accomp pcomp idle accm protocol pb
  rw [txWire, wireOf, hF, Option.getD_some, hfl, fcsFold_append]

/-! ## C8: encoded frame shape -/

theorem escWf_nil (accm : List Nat) : escWf accm [] := trivial

theorem escWf_cons_plain (accm : List Nat) (c : Nat) (l : List Nat)
    (hc : c ≠ PPP_ESCAPE) (hf : c ≠ PPP_FLAG) (hl : escWf accm l) :
    escWf accm (c :: l) := by
  match l with
  | [] => exact ⟨hc, hf⟩
  | d :: rest => rw [escWf, if_neg hc]; exact ⟨hf, hl⟩

theorem escWf_cons_pair (accm : List Nat) (d : Nat) (l : List Nat)
    (hm : escape_p accm (d ^^^ PPP_TRANS) = true) (hd : d ≠ PPP_ESCAPE)
    (hf : d ≠ PPP_FLAG) (hl : escWf accm l) :
    escWf accm (PPP_ESCAPE :: d :: l) := by
  rw [escWf, if_pos rfl]
  exact ⟨hm, hd, hf, hl⟩

theorem xor_xor_self (a b : Nat) : a ^^^ b ^^^ b = a := by
  rw [Nat.xor_assoc, Nat.xor_self, Nat.xor_zero]

theorem escList_escWf (accm : List Nat) (bs : List Nat)
    (h7d : escape_p accm PPP_ESCAPE = true) (h7e : escape_p accm PPP_FLAG = true)
    (h5d : escape_p accm 0x5d = false) (h5e : escape_p accm 0x5e = false) :
    escWf accm (escList accm bs) := by
  induction bs with
  | nil => trivial
  | cons b rest ih =>
    rw [escList_cons]
    by_cases hb : escape_p accm b = true
    · rw [show escSeq (some accm) b = [PPP_ESCAPE, b ^^^ PPP_TRANS] by simp [escSeq, hb]]
      refine escWf_cons_pair accm (b ^^^ PPP_TRANS) (escList accm rest)
        (by rw [xor_xor_self]; exact hb) ?_ ?_ ih
      · intro hcontra
        have hb5 : b = 0x5d := by
          have := congrArg (fun x => x ^^^ PPP_TRANS) hcontra
          simpa [xor_xor_self, PPP_TRANS, PPP_ESCAPE] using this
        rw [hb5] at hb; rw [h5d] at hb; exact Bool.false_ne_true hb
      · intro hcontra
        have hb5 : b = 0x5e := by
          have := congrArg (fun x => x ^^^ PPP_TRANS) hcontra
          simpa [xor_xor_self, PPP_TRANS, PPP_FLAG] using this
        rw [hb5] at hb; rw [h5e] at hb; exact Bool.false_ne_true hb
    · rw [show escSeq (some accm) b = [b] by simp [escSeq, Bool.eq_false_iff.mpr hb]]
      refine escWf_cons_plain accm b (escList accm rest) ?_ ?_ ih
      · intro hcontra; rw [hcontra, h7d] at hb; exact hb rfl
      · intro hcontra; rw [hcontra, h7e] at hb; exact hb rfl

theorem escWf_props (accm : List Nat) :
    ∀ n l, l.length ≤ n → escWf accm l →
      PPP_FLAG ∉ l ∧
        ∀ i, l.get? i = some PPP_ESCAPE →
          ∃ d, l.get? (i + 1) = some d ∧ escape_p accm (d ^^^ PPP_TRANS) = true := by
  intro n
  induction n with
  | zero =>
    intro l hl _
    rw [Nat.le_zero, List.length_eq_zero] at hl
    subst hl
    exact ⟨by simp, by simp⟩
  | succ n ih =>
    intro l hl hwf
    match l with
    | [] => exact ⟨by simp, by simp⟩
    | [c] =>
      obtain ⟨hce, hcf⟩ := hwf
      refine ⟨by simpa using fun h => hcf h.symm, fun i hi => ?_⟩
      match i with
      | 0 => exact absurd (Option.some.inj hi) hce
      | k + 1 => rw [List.get?_cons_succ] at hi; simp at hi
    | c :: d :: rest =>
      by_cases hc : c = PPP_ESCAPE
      · subst hc
        rw [escWf, if_pos rfl] at hwf
        obtain ⟨hmark, hdne, hdnf, hrest⟩ := hwf
        have hlen2 : rest.length ≤ n := by
          simp only [List.length_cons] at hl; omega
        obtain ⟨hnof, hfol⟩ := ih rest hlen2 hrest
        constructor
        · intro hmem
          rcases List.mem_cons.mp hmem with heq | hmem2
          · exact absurd heq (by decide)
          · rcases List.mem_cons.mp hmem2 with heq | hmem3
            · exact hdnf heq.symm
            · exact hnof hmem3
        · intro i hi
          match i with
          | 0 => exact ⟨d, by simp, hmark⟩
          | 1 =>
            rw [List.get?_cons_succ, List.get?_cons_zero] at hi
            exact absurd (Option.some.inj hi) hdne
          | (k + 2) =>
            rw [List.get?_cons_succ, List.get?_cons_succ] at hi
            obtain ⟨d2, hd2, hm2⟩ := hfol k hi
            exact ⟨d2, by simpa using hd2, hm2⟩
      · rw [escWf, if_neg hc] at hwf
        obtain ⟨hcnf, hrest⟩ := hwf
        have hlen2 : (d :: rest).length ≤ n := by
          simp only [List.length_cons] at hl ⊢; omega
        obtain ⟨hnof, hfol⟩ := ih (d :: rest) hlen2 hrest
        constructor
        · intro hmem
          rcases List.mem_cons.mp hmem with heq | hmem2
          · exact hcnf heq.symm
          · exact hnof hmem2
        · intro i hi
          match i with
          | 0 => exact absurd (Option.some.inj hi) hc
          | (k + 1) =>
            rw [List.get?_cons_succ] at hi
            obtain ⟨d2, hd2, hm2⟩ := hfol k hi
            exact ⟨d2, by simpa using hd2, hm2⟩

/-- C8 counterexample: the claim as stated requires every emitted frame
to begin with the flag byte, but when the link has not been idle the TX
path emits no leading flag: a concrete frame starts with 0xff. -/
theorem c8_counterexample :
    (txWire true false false accmDefault false 0xc021 [[0x09]]).head? ≠ some PPP_FLAG := by
  decide

/-- C8 (amended): for a TX ACCM that marks the framing octets 0x7d and
0x7e and leaves their escape images 0x5d and 0x5e unmarked, every frame
the netif TX path emits ends with an unescaped flag and begins with one
exactly when the idle leading flag is due; no interior byte equals 0x7e;
and every interior 0x7d is immediately followed by a byte whose xor with
0x20 is ACCM-marked (0x7d and 0x7e being marked themselves). -/
theorem c8_frame_shape_amended (accomp pcomp idle : Bool) (accm : List Nat)
    (protocol : Nat) (pb : List (List Nat))
    (h7d : escape_p accm PPP_ESCAPE = true) (h7e : escape_p accm PPP_FLAG = true)
    (h5d : escape_p accm 0x5d = false) (h5e : escape_p accm 0x5e = false) :
    ∃ body, txWire true accomp pcomp accm idle protocol pb =
        (if idle then [PPP_FLAG] else []) ++ body ++ [PPP_FLAG] ∧
      PPP_FLAG ∉ body ∧
      ∀ i, body.get? i = some PPP_ESCAPE →
        ∃ d, body.get? (i + 1) = some d ∧ escape_p accm (d ^^^ PPP_TRANS) = true := by
  refine ⟨escList accm (hdrBytes accomp pcomp protocol ++ pb.flatten ++
    fcsTrailer (fcsFold PPP_INITFCS (hdrBytes accomp pcomp protocol ++ pb.flatten))),
    c4_tx_emission accomp pcomp idle accm protocol pb, ?_, ?_⟩
  · exact (escWf_props accm _ _ le_rfl (escList_escWf accm _ h7d h7e h5d h5e)).1
  · exact (escWf_props accm _ _ le_rfl (escList_escWf accm _ h7d h7e h5d h5e)).2

/-- Witness for the amended C8 on a concrete frame under the connect
default ACCM. -/
theorem c8_witness :
    ∃ body, txWire true false false accmDefault true 0xc021 [[0x09, 0x7e]] =
        (if true then [PPP_FLAG] else []) ++ body ++ [PPP_FLAG] ∧
      PPP_FLAG ∉ body ∧
      ∀ i, body.get? i = some PPP_ESCAPE →
        ∃ d, body.get? (i + 1) = some d ∧ escape_p accmDefault (d ^^^ PPP_TRANS) = true :=
  c8_frame_shape_amended false false true accmDefault 0xc021 [[0x09, 0x7e]]
    (by decide) (by decide) (by decide) (by decide)

/-! ## C10: raw write frames only the first buffer -/

/-- C10: pppos_link_write_callback reads only the first buffer of the
chain p (its output does not depend on the rest of the chain), it frees
p exactly once on every return path, and with allocations succeeding the
emitted frame is the escaped first segment with the FCS computed over
exactly that segment. -/
theorem c10_write_first_buffer_only (headAllocOk allocOk idle : Bool) (accm : List Nat)
    (b : List Nat) (rest rest2 : List (List Nat)) (p : List (List Nat)) :
    pppos_link_write_callback headAllocOk allocOk accm idle (b :: rest) =
      pppos_link_write_callback headAllocOk allocOk accm idle (b :: rest2) ∧
    (pppos_link_write_callback headAllocOk allocOk accm idle p).pFreed = 1 ∧
    ∀ q : List (List Nat), ∃ ch,
      pppos_link_write_callback true true accm idle q = { out := some ch, pFreed := 1 } ∧
      ch.flatten = (if idle then [PPP_FLAG] else []) ++
        escList accm (q.headD [] ++ fcsTrailer (fcsFold PPP_INITFCS (q.headD []))) ++
        [PPP_FLAG] := by
  have hmatch : ∀ o : Option (List (List Nat)),
      (match o with
        | none => ({ out := none, pFreed := 1 } : WriteRes)
        | some ch => { out := some ch, pFreed := 1 }).pFreed = 1 := by
    rintro (_ | ch) <;> rfl
  refine ⟨rfl, ?_, ?_⟩
  · by_cases hH : headAllocOk = true
    · subst hH
      simp only [pppos_link_write_callback, Bool.not_true, Bool.false_eq_true, if_false,
        ite_false]
      exact hmatch _
    · rw [Bool.not_eq_true] at hH
      subst hH
      rfl
  · intro q
    obtain ⟨ch0, hch0, hfl0⟩ :
        ∃ ch0, (if idle then pppos_append PPP_FLAG (some [[]]) none true
            else some ([[]] : List (List Nat))) = some ch0 ∧
          ch0.flatten = (if idle then [PPP_FLAG] else []) := by
      cases idle
      · exact ⟨[[]], rfl, rfl⟩
      · obtain ⟨ch0, h, _, hf⟩ := pppos_append_true PPP_FLAG [[]] none
        exact ⟨ch0, h, by simpa [escSeq] using hf⟩
    obtain ⟨ch1, hch1, hfl1⟩ := txRun accm (q.headD []) PPP_INITFCS ch0
    obtain ⟨chF, hchF, hflF⟩ := txFinish accm (fcsFold PPP_INITFCS (q.headD [])) ch1
    refine ⟨chF, ?_, ?_⟩
    · simp only [pppos_link_write_callback, Bool.not_true, Bool.false_eq_true, if_false,
        ite_false, hch0]
      rw [hch1, hchF]
    · rw [hflF, hfl1, hfl0, escList_append]
      simp [List.append_assoc]

/-! ## C7: short-write recovery in pppos_xmit -/

theorem xmit_from_short (sio : Nat → Nat) :
    ∀ (nb : List (List Nat)) (i0 i : Nat),
      i < nb.length →
      (∀ j, j < i → sio (i0 + j) = (nb.getD j []).length) →
      sio (i0 + i) ≠ (nb.getD i []).length →
      pppos_xmit_from sio i0 nb =
        { calls := i0 + i + 1, errInc := 1, lastXmitZeroed := true,
          xmitInc := 0, freed := true } := by
  intro nb
  induction nb with
  | nil => intro i0 i hi; simp at hi
  | cons b rest ih =>
    intro i0 i hi hpre hshort
    match i with
    | 0 =>
      have hs : sio i0 ≠ b.length := by simpa using hshort
      simp [pppos_xmit_from, hs]
    | k + 1 =>
      have h0 : sio i0 = b.length := by simpa using hpre 0 (by omega)
      have hrec := ih (i0 + 1) k (by simpa using hi)
        (fun j hj => by
          have := hpre (j + 1) (by omega)
          simpa [Nat.add_assoc, Nat.add_comm 1 j] using this)
        (by
          have heq : i0 + 1 + k = i0 + (k + 1) := by omega
          rw [heq]
          simpa using hshort)
      rw [pppos_xmit_from, if_neg (by simp [h0])]
      rw [hrec]
      have : i0 + 1 + k = i0 + (k + 1) := by omega
      rw [this]

/-- C7: when sio_write returns fewer bytes than offered for segment i of
the chain (the first short segment), pppos_xmit makes exactly i + 1
write calls (so the remainder of the frame is never offered and nothing
is retried), bumps link.err once, zeroes last_xmit so the next frame
gets a leading flag, does not count the frame as transmitted, and frees
the chain. -/
theorem c7_short_write_recovery (sio : Nat → Nat) (nb : List (List Nat)) (i : Nat)
    (hi : i < nb.length)
    (hpre : ∀ j, j < i → sio j = (nb.getD j []).length)
    (hshort : sio i ≠ (nb.getD i []).length) :
    pppos_xmit sio nb =
      { calls := i + 1, errInc := 1, lastXmitZeroed := true,
        xmitInc := 0, freed := true } := by
  have h := xmit_from_short sio nb 0 i hi (by simpa using hpre) (by simpa using hshort)
  simpa [pppos_xmit] using h

/-- Witness for C7: a 10-byte single-segment frame of which only 3 bytes
are written. -/
theorem c7_witness :
    pppos_xmit (fun j => if j = 0 then 3 else 0) [[1, 2, 3, 4, 5, 6, 7, 8, 9, 10]] =
      { calls := 1, errInc := 1, lastXmitZeroed := true, xmitInc := 0, freed := true } :=
  c7_short_write_recovery (fun j => if j = 0 then 3 else 0) [[1, 2, 3, 4, 5, 6, 7, 8, 9, 10]]
    0 (by decide) (fun j hj => absurd hj (by omega)) (by decide)

/-! ## C3: FLAG termination dispositions -/

/-- C3 counterexample: the claim says the framer state after a processed
FLAG is START, but the code resets to PDADDRESS: concretely, feeding one
flag byte to the connect state leaves the state machine in PDADDRESS,
not PDSTART. -/
theorem c3_counterexample :
    (pppos_input_byte true (rx_init accmDefault) PPP_FLAG).inState ≠ PD.PDSTART ∧
      (pppos_input_byte true (rx_init accmDefault) PPP_FLAG).inState = PD.PDADDRESS := by
  constructor <;> decide

/-- C3 (amended): on a non-escaped FLAG, a state at or before PDADDRESS
ignores it with no other change; PDPROTOCOL1 or PDPROTOCOL2 drops the
partial frame and bumps the length-error counter (and the drop counter);
PDDATA with a bad FCS drops the frame and bumps the check-error counter;
and in every case the framer is left in state ADDRESS (not START: the
code resets to PDADDRESS, which is equivalent because the FCS is also
reset) with FCS PPP_INITFCS and in_escaped cleared. -/
theorem c3_flag_dispositions (st : RxState) (ok : Bool)
    (hnd : st.nullDeref = false)
    (h7e : escape_p st.inAccm PPP_FLAG = true) :
    (st.inState.val ≤ PD.PDADDRESS.val →
      pppos_input_byte ok st PPP_FLAG =
        { st with inFcs := PPP_INITFCS, inState := .PDADDRESS, inEscaped := false }) ∧
    ((st.inState = .PDPROTOCOL1 ∨ st.inState = .PDPROTOCOL2) →
      pppos_input_byte ok st PPP_FLAG =
        { st with lenerr := st.lenerr + 1, droperr := st.droperr + 1, bufs := .noBufs,
                  inFcs := PPP_INITFCS, inState := .PDADDRESS, inEscaped := false }) ∧
    (st.inState = .PDDATA → st.inFcs ≠ PPP_GOODFCS →
      pppos_input_byte ok st PPP_FLAG =
        { st with chkerr := st.chkerr + 1, droperr := st.droperr + 1, bufs := .noBufs,
                  inFcs := PPP_INITFCS, inState := .PDADDRESS, inEscaped := false }) ∧
    (pppos_input_byte ok st PPP_FLAG).inState = .PDADDRESS ∧
    (pppos_input_byte ok st PPP_FLAG).inFcs = PPP_INITFCS ∧
    (pppos_input_byte ok st PPP_FLAG).inEscaped = false := by
  have hstep : pppos_input_byte ok st PPP_FLAG = rx_flag st := by
    rw [pppos_input_byte, if_neg (by rw [hnd]; exact Bool.false_ne_true), if_pos h7e,
      if_neg (by decide : ¬(PPP_FLAG = PPP_ESCAPE)), if_pos rfl]
  rw [hstep]
  refine ⟨?_, ?_, ?_, ?_, ?_, ?_⟩
  · intro hle
    rw [rx_flag, if_pos hle]
  · rintro (h | h) <;> rw [rx_flag, if_neg (by rw [h]; decide), if_pos (by rw [h]; decide)]
  · intro hdata hbad
    rw [rx_flag, if_neg (by rw [hdata]; decide), if_neg (by rw [hdata]; decide),
      if_pos hbad]
  · rw [rx_flag]
  · rw [rx_flag]
  · rw [rx_flag]

/-- Witness for the amended C3 in the PDDATA bad-FCS case, on a concrete
partial frame. -/
theorem c3_witness :
    pppos_input_byte true (pppos_input true (rx_ready accmDefault) [0xff, 0x03, 0x21, 0x41])
        PPP_FLAG =
      { pppos_input true (rx_ready accmDefault) [0xff, 0x03, 0x21, 0x41] with
          chkerr := (pppos_input true (rx_ready accmDefault) [0xff, 0x03, 0x21, 0x41]).chkerr + 1,
          droperr := (pppos_input true (rx_ready accmDefault) [0xff, 0x03, 0x21, 0x41]).droperr + 1,
          bufs := .noBufs, inFcs := PPP_INITFCS, inState := .PDADDRESS,
          inEscaped := false } :=
  (c3_flag_dispositions (pppos_input true (rx_ready accmDefault) [0xff, 0x03, 0x21, 0x41])
    true (by decide) (by decide)).2.2.1 (by decide) (by decide)

/-! ## RX chain facts -/

theorem flattenC_cons (b : Rpbuf) (ch : List Rpbuf) :
    flattenC (b :: ch) = b.payload ++ flattenC ch := by
  simp [flattenC]

theorem flattenC_cat (ch : List Rpbuf) (t : Rpbuf) :
    flattenC (pbuf_cat ch t) = flattenC ch ++ t.payload := by
  induction ch with
  | nil => simp [flattenC, pbuf_cat]
  | cons b rest ih =>
    have hstep : pbuf_cat (b :: rest) t =
        { payload := b.payload, totLen := b.totLen + t.totLen } :: pbuf_cat rest t := by
      simp [pbuf_cat]
    rw [hstep, flattenC_cons, ih, flattenC_cons]
    simp

theorem fullChain_length (ch : List Rpbuf) (h : FullChain ch) :
    (flattenC ch).length = PBUF_POOL_BUFSIZE * ch.length := by
  induction ch with
  | nil => simp [flattenC]
  | cons b rest ih =>
    obtain ⟨hlen, _, hrest⟩ := h
    rw [flattenC_cons, List.length_append, hlen, ih hrest, List.length_cons]
    ring

theorem fullChain_head_totLen (ch : List Rpbuf) (h : FullChain ch) (hne : ch ≠ []) :
    (ch.headD default).totLen = PBUF_POOL_BUFSIZE * ch.length := by
  match ch with
  | [] => exact absurd rfl hne
  | b :: rest =>
    obtain ⟨_, htot, _⟩ := h
    simpa using htot

theorem pbuf_cat_length (ch : List Rpbuf) (t : Rpbuf) :
    (pbuf_cat ch t).length = ch.length + 1 := by
  simp [pbuf_cat]

theorem fullChain_cat (ch : List Rpbuf) (t : Rpbuf)
    (h : FullChain ch) (ht : t.payload.length = PBUF_POOL_BUFSIZE)
    (htot : t.totLen = PBUF_POOL_BUFSIZE) :
    FullChain (pbuf_cat ch t) := by
  induction ch with
  | nil => exact ⟨ht, by simpa [pbuf_cat] using htot, trivial⟩
  | cons b rest ih =>
    obtain ⟨hlen, hbt, hrest⟩ := h
    have hstep : pbuf_cat (b :: rest) t =
        { payload := b.payload, totLen := b.totLen + t.totLen } :: pbuf_cat rest t := by
      simp [pbuf_cat]
    rw [hstep]
    refine ⟨hlen, ?_, ih hrest⟩
    rw [pbuf_cat_length, hbt, htot]
    ring

theorem realloc_spec : ∀ (ch : List Rpbuf) (remLen : Nat), ch ≠ [] →
    remLen ≤ (flattenC ch).length →
    flattenC (pbuf_realloc_chain ch remLen) = (flattenC ch).take remLen ∧
      ((pbuf_realloc_chain ch remLen).headD default).totLen = remLen ∧
      pbuf_realloc_chain ch remLen ≠ [] := by
  intro ch
  induction ch with
  | nil => intro remLen h; exact absurd rfl h
  | cons b rest ih =>
    intro remLen _ hle
    rw [flattenC_cons, List.length_append] at hle
    rw [pbuf_realloc_chain]
    by_cases hlt : b.payload.length < remLen
    · rw [if_pos hlt]
      have hrne : rest ≠ [] := by
        intro hr
        subst hr
        simp only [flattenC, List.map_nil, List.flatten_nil, List.length_nil] at hle
        omega
      obtain ⟨hfl, _, hne⟩ := ih (remLen - b.payload.length) hrne (by omega)
      refine ⟨?_, by simp, by simp⟩
      rw [flattenC_cons, hfl, flattenC_cons, List.take_append_eq_append_take,
        List.take_of_length_le (le_of_lt hlt)]
    · rw [if_neg hlt]
      refine ⟨?_, by simp, by simp⟩
      have hfl : flattenC [({ payload := b.payload.take remLen, totLen := remLen } : Rpbuf)] =
          b.payload.take remLen := by
        simp [flattenC]
      rw [hfl, flattenC_cons, List.take_append_of_le_length (by omega)]

theorem storeByte_ne_noBufs (p c : Nat) (bufs : RxBufs) :
    storeByte p c bufs ≠ .noBufs := by
  cases bufs <;> simp only [storeByte] <;> first
    | exact fun h => RxBufs.noConfusion h
    | split <;> exact fun h => RxBufs.noConfusion h

theorem storeByte_flatten (p c : Nat) (bufs : RxBufs) :
    flattenB (storeByte p c bufs) =
      (if bufs = .noBufs then protoBytes p else flattenB bufs) ++ [c] := by
  cases bufs with
  | noBufs => simp [storeByte, flattenB, flattenC]
  | single b =>
    simp only [storeByte]
    split
    · simp [flattenB, flattenC]
    · simp [flattenB]
  | headTail ch t =>
    simp only [storeByte]
    split
    · simp only [flattenB, flattenC_cat]
      simp
    · simp [flattenB]

theorem storeByte_BufOk (p c : Nat) (bufs : RxBufs) (h : BufOk p bufs) :
    BufOk p (storeByte p c bufs) := by
  cases bufs with
  | noBufs =>
    refine ⟨rfl, by simp [protoBytes], by simp [protoBytes, PBUF_POOL_BUFSIZE], ?_⟩
    simp [protoBytes]
  | single b =>
    obtain ⟨htot, h3, hcap, hpre⟩ := h
    simp only [storeByte]
    split
    · refine ⟨⟨(by assumption), by simpa using (by assumption), trivial⟩, by simp, rfl,
        by simp, by simp [PBUF_POOL_BUFSIZE], by simpa using hpre⟩
    · exact ⟨htot, by simpa using Nat.le_succ_of_le h3,
        by simp only [List.length_append, List.length_singleton]; omega,
        by rw [List.take_append_of_le_length (by omega)]; exact hpre⟩
  | headTail ch t =>
    obtain ⟨hfull, hne, htot, h1, hcap, hpre⟩ := h
    simp only [storeByte]
    split
    · refine ⟨fullChain_cat ch _ hfull (by simp; assumption) (by simp; assumption),
        by simp [pbuf_cat], rfl, by simp, by simp [PBUF_POOL_BUFSIZE], ?_⟩
      match ch with
      | [] => exact absurd rfl hne
      | b0 :: rest => simpa [pbuf_cat] using hpre
    · exact ⟨hfull, hne, htot, by simp,
        by simp only [List.length_append, List.length_singleton]; omega, hpre⟩

theorem flattenB_take_two (p : Nat) (bufs : RxBufs) (hne : bufs ≠ .noBufs)
    (hok : BufOk p bufs) : (flattenB bufs).take 2 = protoBytes p := by
  cases bufs with
  | noBufs => exact absurd rfl hne
  | single b => exact hok.2.2.2
  | headTail ch t =>
    obtain ⟨hfull, hchne, _, _, _, hpre⟩ := hok
    match ch with
    | [] => exact absurd rfl hchne
    | b0 :: rest =>
      obtain ⟨hlen0, _, _⟩ := hfull
      rw [flattenB, flattenC_cons, List.append_assoc,
        List.take_append_of_le_length (by rw [hlen0]; decide)]
      simpa using hpre

theorem trimOut_spec (p : Nat) (bufs : RxBufs) (hne : bufs ≠ .noBufs)
    (hok : BufOk p bufs) :
    trimOut bufs ≠ [] ∧
      ((trimOut bufs).headD default).totLen = storedLen bufs - 2 ∧
      flattenC (trimOut bufs) = (flattenB bufs).take (storedLen bufs - 2) := by
  cases bufs with
  | noBufs => exact absurd rfl hne
  | single b =>
    obtain ⟨_, h3, _, _⟩ := hok
    rw [trimOut, if_pos (by omega)]
    refine ⟨by simp, by simp [storedLen, flattenB], ?_⟩
    simp [flattenC, flattenB, storedLen]
  | headTail ch t =>
    obtain ⟨hfull, hchne, htot0, h1, hcap, _⟩ := hok
    obtain ⟨b0, rest, rfl⟩ : ∃ b0 rest, ch = b0 :: rest := by
      match ch with
      | [] => exact absurd rfl hchne
      | b0 :: rest => exact ⟨b0, rest, rfl⟩
    have hb0tot : b0.totLen = PBUF_POOL_BUFSIZE * (rest.length + 1) := hfull.2.1
    have hchlen : (flattenC (b0 :: rest)).length =
        PBUF_POOL_BUFSIZE * (rest.length + 1) := by
      rw [fullChain_length (b0 :: rest) hfull]
      simp
    have hstored : storedLen (RxBufs.headTail (b0 :: rest) t) =
        PBUF_POOL_BUFSIZE * (rest.length + 1) + t.payload.length := by
      rw [storedLen, flattenB, List.length_append, hchlen]
    by_cases hgt : t.payload.length > 2
    · have hT : trimOut (RxBufs.headTail (b0 :: rest) t) =
          pbuf_cat (b0 :: rest)
            { payload := t.payload.take (t.payload.length - 2),
              totLen := t.payload.length - 2 } := by
        rw [trimOut, if_pos hgt]
      set t2 : Rpbuf :=
        { payload := t.payload.take (t.payload.length - 2),
          totLen := t.payload.length - 2 } with ht2
      have hcatstep : pbuf_cat (b0 :: rest) t2 =
          { payload := b0.payload, totLen := b0.totLen + t2.totLen } ::
            pbuf_cat rest t2 := by
        simp [pbuf_cat]
      refine ⟨by rw [hT, hcatstep]; simp, ?_, ?_⟩
      · rw [hT, hcatstep]
        simp only [List.headD_cons]
        rw [hb0tot, hstored]
        omega
      · rw [hT, flattenC_cat, flattenB, hstored, ht2]
        have hrhs : (flattenC (b0 :: rest) ++ t.payload).take
            (PBUF_POOL_BUFSIZE * (rest.length + 1) + t.payload.length - 2) =
            flattenC (b0 :: rest) ++ t.payload.take (t.payload.length - 2) := by
          rw [List.take_append_eq_append_take,
            List.take_of_length_le (by rw [hchlen]; omega), hchlen]
          congr 2
          omega
        rw [hrhs]
    · have ht2 : ({ t with totLen := t.payload.length } : Rpbuf) =
          { payload := t.payload, totLen := t.payload.length } := rfl
      have hcatne : pbuf_cat (b0 :: rest)
          { payload := t.payload, totLen := t.payload.length } ≠ [] := by
        simp [pbuf_cat]
      have hheadtot : ((pbuf_cat (b0 :: rest)
          { payload := t.payload, totLen := t.payload.length }).headD default).totLen =
          PBUF_POOL_BUFSIZE * (rest.length + 1) + t.payload.length := by
        have hcatstep : pbuf_cat (b0 :: rest)
            { payload := t.payload, totLen := t.payload.length } =
            { payload := b0.payload, totLen := b0.totLen + t.payload.length } ::
              pbuf_cat rest { payload := t.payload, totLen := t.payload.length } := by
          simp [pbuf_cat]
        rw [hcatstep]
        simp only [List.headD_cons]
        rw [hb0tot]
      have hcatflat : flattenC (pbuf_cat (b0 :: rest)
          { payload := t.payload, totLen := t.payload.length }) =
          flattenC (b0 :: rest) ++ t.payload := flattenC_cat ..
      have hrem : PBUF_POOL_BUFSIZE * (rest.length + 1) + t.payload.length - 2 ≤
          (flattenC (pbuf_cat (b0 :: rest)
            { payload := t.payload, totLen := t.payload.length })).length := by
        rw [hcatflat, List.length_append, hchlen]
        omega
      obtain ⟨hfl, hhd, hnemp⟩ := realloc_spec
        (pbuf_cat (b0 :: rest) { payload := t.payload, totLen := t.payload.length })
        (PBUF_POOL_BUFSIZE * (rest.length + 1) + t.payload.length - 2) hcatne hrem
      have hT : trimOut (RxBufs.headTail (b0 :: rest) t) =
          pbuf_realloc_chain
            (pbuf_cat (b0 :: rest) { payload := t.payload, totLen := t.payload.length })
            (PBUF_POOL_BUFSIZE * (rest.length + 1) + t.payload.length - 2) := by
        simp only [trimOut, if_neg hgt]
        rw [hheadtot]
      rw [hT]
      refine ⟨hnemp, ?_, ?_⟩
      · rw [hhd, hstored]
      · rw [hfl, hcatflat, flattenB, hstored]

/-! ## RX state invariant -/

theorem rx_switch_fields (ok : Bool) (st : RxState) (c : Nat) :
    (rx_switch ok st c).inAccm = st.inAccm ∧
      (rx_switch ok st c).inEscaped = st.inEscaped ∧
      (rx_switch ok st c).nullDeref = st.nullDeref ∧
      (rx_switch ok st c).delivered = st.delivered := by
  cases hst : st.inState <;>
    simp only [rx_switch, hst, rx_idle, rx_start, rx_address, rx_control, rx_protocol1,
      rx_data] <;>
    first
      | (split_ifs <;> simp_all)
      | simp_all

theorem rx_flag_fields (st : RxState) :
    (rx_flag st).inAccm = st.inAccm ∧ (rx_flag st).inProtocol = st.inProtocol := by
  rw [rx_flag]
  split_ifs <;> try simp
  cases st.bufs <;> simp

theorem rx_flag_bufs (st : RxState) :
    (rx_flag st).bufs = .noBufs ∨
      ((rx_flag st).bufs = st.bufs ∧ st.inState.val ≤ PD.PDADDRESS.val) := by
  rw [rx_flag]
  split_ifs with h1 h2 h3
  · exact Or.inr ⟨rfl, h1⟩
  · exact Or.inl rfl
  · exact Or.inl rfl
  · cases hb : st.bufs <;> simp [hb]

theorem step_inAccm (ok : Bool) (st : RxState) (c : Nat) :
    (pppos_input_byte ok st c).inAccm = st.inAccm := by
  rw [pppos_input_byte]
  split_ifs <;>
    first
      | rfl
      | exact (rx_flag_fields st).1
      | (rw [rx_logical]; exact (rx_switch_fields ok _ _).1)

theorem rxInv_switch (ok : Bool) (st : RxState) (c : Nat) (hc : c < 256)
    (hbufs : st.bufs ≠ .noBufs → st.inState = .PDDATA ∧ BufOk st.inProtocol st.bufs)
    (hproto : st.inProtocol < 65536) :
    ((rx_switch ok st c).bufs ≠ .noBufs →
      (rx_switch ok st c).inState = .PDDATA ∧
        BufOk (rx_switch ok st c).inProtocol (rx_switch ok st c).bufs) ∧
      (rx_switch ok st c).inProtocol < 65536 := by
  have hshift : c <<< 8 < 65536 := by
    rw [Nat.shiftLeft_eq]
    have h8 : (2 : Nat) ^ 8 = 256 := by norm_num
    rw [h8]
    omega
  have hor : st.inProtocol ||| c < 65536 := by
    have h16 : (65536 : Nat) = 2 ^ 16 := by norm_num
    rw [h16]
    exact Nat.or_lt_two_pow (by omega) (by omega)
  have hB : BufOk st.inProtocol st.bufs := by
    by_cases h : st.bufs = .noBufs
    · rw [h]; trivial
    · exact (hbufs h).2
  have hnotdata : st.inState ≠ .PDDATA → st.bufs = .noBufs := by
    intro hne
    by_contra h
    exact hne (hbufs h).1
  cases hst : st.inState
  case PDIDLE =>
    have hnb := hnotdata (by rw [hst]; exact fun h => PD.noConfusion h)
    simp only [rx_switch, hst, rx_idle, rx_start, rx_address, rx_control, rx_protocol1]
    split_ifs <;> simp_all
  case PDSTART =>
    have hnb := hnotdata (by rw [hst]; exact fun h => PD.noConfusion h)
    simp only [rx_switch, hst, rx_start, rx_address, rx_control, rx_protocol1]
    split_ifs <;> simp_all
    all_goals omega
  case PDADDRESS =>
    have hnb := hnotdata (by rw [hst]; exact fun h => PD.noConfusion h)
    simp only [rx_switch, hst, rx_address, rx_control, rx_protocol1]
    split_ifs <;> simp_all
    all_goals omega
  case PDCONTROL =>
    have hnb := hnotdata (by rw [hst]; exact fun h => PD.noConfusion h)
    simp only [rx_switch, hst, rx_control, rx_protocol1]
    split_ifs <;> simp_all
    all_goals omega
  case PDPROTOCOL1 =>
    have hnb := hnotdata (by rw [hst]; exact fun h => PD.noConfusion h)
    simp only [rx_switch, hst, rx_protocol1]
    split_ifs <;> simp_all
    all_goals omega
  case PDPROTOCOL2 =>
    have hnb := hnotdata (by rw [hst]; exact fun h => PD.noConfusion h)
    simp only [rx_switch, hst]
    simp_all
  case PDDATA =>
    simp only [rx_switch, hst, rx_data]
    split_ifs with hfail
    · exact ⟨fun h => absurd rfl h, hproto⟩
    · refine ⟨fun _ => ⟨rfl, ?_⟩, hproto⟩
      exact storeByte_BufOk st.inProtocol c st.bufs hB

theorem rxInv_step (ok : Bool) (st : RxState) (c : Nat) (hc : c < 256)
    (hInv : RxInv st) : RxInv (pppos_input_byte ok st c) := by
  obtain ⟨hbufs, hproto⟩ := hInv
  rw [pppos_input_byte]
  by_cases h1 : st.nullDeref = true
  · rw [if_pos h1]; exact ⟨hbufs, hproto⟩
  rw [if_neg h1]
  by_cases h2 : escape_p st.inAccm c = true
  · rw [if_pos h2]
    by_cases h3 : c = PPP_ESCAPE
    · rw [if_pos h3]; exact ⟨fun h => hbufs h, hproto⟩
    rw [if_neg h3]
    by_cases h4 : c = PPP_FLAG
    · rw [if_pos h4]
      constructor
      · intro hne
        rcases rx_flag_bufs st with hb | ⟨hb, hle⟩
        · rw [hb] at hne; exact absurd rfl hne
        · rw [hb] at hne
          have hd := (hbufs hne).1
          rw [hd] at hle
          exact absurd hle (by decide)
      · rw [(rx_flag_fields st).2]; exact hproto
    · rw [if_neg h4]; exact ⟨hbufs, hproto⟩
  · rw [if_neg h2, rx_logical]
    have hc2 : (if st.inEscaped then c ^^^ PPP_TRANS else c) < 256 := by
      split_ifs
      · have h8 : (256 : Nat) = 2 ^ 8 := by norm_num
        rw [h8]
        exact Nat.xor_lt_two_pow (by omega) (by norm_num [PPP_TRANS])
      · exact hc
    have hsw := rxInv_switch ok { st with inEscaped := false }
      (if st.inEscaped then c ^^^ PPP_TRANS else c) hc2 (fun h => hbufs h) hproto
    exact ⟨fun h => hsw.1 h, hsw.2⟩

theorem rxReach_inv (accm : List Nat) (st : RxState) (h : RxReach accm st) :
    RxInv st ∧ st.inAccm = accm := by
  induction h with
  | init =>
    refine ⟨⟨fun h => absurd rfl h, by norm_num [rx_init]⟩, rfl⟩
  | step st c ok h hc ih =>
    exact ⟨rxInv_step ok st c hc ih.1, by rw [step_inAccm]; exact ih.2⟩

theorem rxReach_input (accm : List Nat) (ok : Bool) :
    ∀ (bs : List Nat) (st : RxState), RxReach accm st → (∀ b ∈ bs, b < 256) →
      RxReach accm (pppos_input ok st bs) := by
  intro bs
  induction bs with
  | nil => intro st h _; exact h
  | cons b rest ih =>
    intro st h hb
    exact ih (pppos_input_byte ok st b)
      (RxReach.step st b ok h (hb b (by simp)))
      (fun x hx => hb x (by simp [hx]))

/-! ## C2: good-frame delivery postcondition -/

/-- C2 counterexample: the original claim fails on a reachable input.
Feeding 7e ff 03 00 57 2a from the connect state walks the header into
PDDATA and absorbs the single data byte 2a, after which the running FCS
over ff 03 00 57 2a is exactly 0xf0b8 with buffers present, so the next
FLAG takes the good-FCS delivery branch; but the delivered chain is one
byte long with tot_len 1 (the trim removes the 2 trailing stored bytes
from a 3-byte store), so it is not 2 plus the absorbed payload and its
single byte 0x00 is not the 2-byte protocol prefix 0x00 0x57. -/
theorem c2_counterexample :
    (pppos_input true (rx_init accmDefault)
        [PPP_FLAG, 0xff, 0x03, 0x00, 0x57, 0x2a]).inState = PD.PDDATA ∧
      (pppos_input true (rx_init accmDefault)
        [PPP_FLAG, 0xff, 0x03, 0x00, 0x57, 0x2a]).inFcs = PPP_GOODFCS ∧
      (pppos_input true (rx_init accmDefault)
        [PPP_FLAG, 0xff, 0x03, 0x00, 0x57, 0x2a]).bufs ≠ RxBufs.noBufs ∧
      (pppos_input true (rx_init accmDefault)
        [PPP_FLAG, 0xff, 0x03, 0x00, 0x57, 0x2a, PPP_FLAG]).delivered =
        [[⟨[0x00], 1⟩]] := by
  refine ⟨?_, ?_, ?_, ?_⟩ <;> decide

/-- C2 (amended): in every reachable RX state, when a non-escaped FLAG
arrives in PDDATA with the running FCS equal to 0xf0b8 and buffers
present, exactly one chain is handed to ppp_input, the trim removes
exactly the 2 trailing stored bytes in both trim branches, and in_head
and in_tail are NULL afterwards; when the stored chain holds at least 4
bytes (the 2-byte protocol prefix plus at least 2 absorbed data bytes,
the amended side condition a short frame such as 7e ff 03 00 57 2a 7e
violates), the delivered head tot_len is 2 (protocol prefix) plus the
number of data bytes stored minus the two trailing FCS bytes, and its
first two bytes are the recovered protocol number in big-endian
order. -/
theorem c2_good_frame_delivery (accm : List Nat) (st : RxState) (ok : Bool)
    (hreach : RxReach accm st) (h7e : escape_p accm PPP_FLAG = true)
    (hnd : st.nullDeref = false) (hdata : st.inState = .PDDATA)
    (hfcs : st.inFcs = PPP_GOODFCS) (hbufs : st.bufs ≠ .noBufs)
    (hlen : 4 ≤ storedLen st.bufs) :
    pppos_input_byte ok st PPP_FLAG =
      { st with delivered := st.delivered ++ [trimOut st.bufs], bufs := .noBufs,
                inFcs := PPP_INITFCS, inState := .PDADDRESS, inEscaped := false } ∧
      ((trimOut st.bufs).headD default).totLen = 2 + (storedLen st.bufs - 4) ∧
      (flattenC (trimOut st.bufs)).take 2 = protoBytes st.inProtocol ∧
      trimOut st.bufs ≠ [] := by
  obtain ⟨⟨hinv, _⟩, haccm⟩ := rxReach_inv accm st hreach
  have hok : BufOk st.inProtocol st.bufs := (hinv hbufs).2
  obtain ⟨hne, htot, hfl⟩ := trimOut_spec st.inProtocol st.bufs hbufs hok
  have hstep : pppos_input_byte ok st PPP_FLAG = rx_flag st := by
    rw [pppos_input_byte, if_neg (by rw [hnd]; exact Bool.false_ne_true),
      if_pos (by rw [haccm]; exact h7e),
      if_neg (by decide : ¬(PPP_FLAG = PPP_ESCAPE)), if_pos rfl]
  refine ⟨?_, ?_, ?_, hne⟩
  · rw [hstep, rx_flag]
    rw [if_neg (by rw [hdata]; decide), if_neg (by rw [hdata]; decide),
      if_neg (by rw [hfcs]; exact fun h => h rfl)]
    rcases hb : st.bufs with _ | b | ⟨ch, t⟩
    · exact absurd hb hbufs
    · simp [hb]
    · simp [hb]
  · rw [htot]; omega
  · rw [hfl, List.take_take, Nat.min_eq_left (by omega)]
    exact flattenB_take_two st.inProtocol st.bufs hbufs hok

/-- Witness for C2 on the concrete LCP frame ff 03 c0 21 09 01 00 04
with trailer 09 50: the delivered head tot_len is the prefix plus
payload length, excluding the FCS bytes. -/
theorem c2_witness :
    ((trimOut (pppos_input true (rx_init accmDefault)
          [0xff, 0x03, 0xc0, 0x21, 0x09, 0x01, 0x00, 0x04, 0x09, 0x50]).bufs).headD
        default).totLen =
      2 + (storedLen (pppos_input true (rx_init accmDefault)
          [0xff, 0x03, 0xc0, 0x21, 0x09, 0x01, 0x00, 0x04, 0x09, 0x50]).bufs - 4) :=
  (c2_good_frame_delivery accmDefault _ true
    (rxReach_input accmDefault true _ _ RxReach.init (by decide))
    (by decide) (by decide) (by decide) (by decide) (by decide) (by decide)).2.1

/-! ## C6: null tail at delivery -/

/-- C6 is violated by the code: after a flag, the two header bytes 00 00
walk PDADDRESS, PDCONTROL and PDPROTOCOL1 (even low bit) into PDDATA
with protocol 0 and a running FCS that is exactly 0xf0b8, while no data
byte has been stored, so in_head and in_tail are still NULL; the next
FLAG then reaches the good-FCS trim code, which dereferences the NULL
in_tail. -/
theorem c6_null_tail_dereference :
    (pppos_input true (rx_init accmDefault) [PPP_FLAG, 0x00, 0x00]).inState = PD.PDDATA ∧
      (pppos_input true (rx_init accmDefault) [PPP_FLAG, 0x00, 0x00]).inFcs = PPP_GOODFCS ∧
      (pppos_input true (rx_init accmDefault) [PPP_FLAG, 0x00, 0x00]).bufs = RxBufs.noBufs ∧
      (pppos_input true (rx_init accmDefault)
        [PPP_FLAG, 0x00, 0x00, PPP_FLAG]).nullDeref = true := by
  refine ⟨?_, ?_, ?_, ?_⟩ <;> decide

/-! ## Bit arithmetic for the round trip -/

theorem shiftRight_xor_distrib (a b n : Nat) : (a ^^^ b) >>> n = a >>> n ^^^ b >>> n := by
  apply Nat.eq_of_testBit_eq
  intro i
  simp

theorem and_ff_of_lt (h : Nat) (hh : h < 256) : h &&& 0xff = h := by
  have h8 : (0xff : Nat) = 2 ^ 8 - 1 := by norm_num
  rw [h8]
  exact Nat.and_pow_two_sub_one_of_lt_two_pow (by omega)

theorem and_ff_eq_mod (x : Nat) : x &&& 0xff = x % 256 := by
  have h8 : (0xff : Nat) = 2 ^ 8 - 1 := by norm_num
  rw [h8, Nat.and_pow_two_sub_one_eq_mod]

theorem xor_mix (h a b : Nat) : (h ^^^ a) ^^^ (h ^^^ b) = a ^^^ b := by
  rw [Nat.xor_comm h a, Nat.xor_assoc, Nat.xor_cancel_left]

theorem lor_shift_add (x y : Nat) (hy : y < 256) : (x <<< 8) ||| y = 256 * x + y := by
  have h28 : (256 : Nat) = 2 ^ 8 := by norm_num
  apply Nat.eq_of_testBit_eq
  intro j
  rw [Nat.testBit_lor, Nat.testBit_shiftLeft, h28,
    Nat.testBit_mul_pow_two_add x (by omega) j]
  by_cases hj : j < 8
  · have hnj : ¬(j ≥ 8) := by omega
    simp [hj, hnj]
  · have h8j : (8 : Nat) ≤ j := by omega
    have hyj : y.testBit j = false := by
      apply Nat.testBit_lt_two_pow
      calc y < 256 := hy
        _ = 2 ^ 8 := h28
        _ ≤ 2 ^ j := Nat.pow_le_pow_right (by norm_num) h8j
    simp [hj, h8j, hyj]

theorem shiftRight8_lt (p : Nat) (hp : p < 65536) : p >>> 8 < 256 := by
  rw [Nat.shiftRight_eq_div_pow]
  have h28 : (2 : Nat) ^ 8 = 256 := by norm_num
  rw [h28]
  omega

theorem proto_rebuild (p : Nat) (hp : p < 65536) :
    ((p >>> 8) &&& 0xff) <<< 8 ||| (p &&& 0xff) = p := by
  rw [and_ff_of_lt _ (shiftRight8_lt p hp), and_ff_eq_mod,
    lor_shift_add _ _ (by omega), Nat.shiftRight_eq_div_pow]
  have h28 : (2 : Nat) ^ 8 = 256 := by norm_num
  rw [h28]
  omega

/-! ## FCS bounds and the good-residue property -/

theorem fcstab_lt (i : Nat) : fcstab.getD i 0 < 65536 := by
  rcases Nat.lt_or_ge i 256 with hi | hi
  · revert hi
    revert i
    decide
  · rw [List.getD_eq_default]
    · norm_num
    · rw [show fcstab.length = 256 by decide]
      omega

theorem PPP_FCS_lt (f c : Nat) (hf : f < 65536) : PPP_FCS f c < 65536 := by
  rw [PPP_FCS]
  have h16 : (65536 : Nat) = 2 ^ 16 := by norm_num
  rw [h16]
  refine Nat.xor_lt_two_pow ?_ ?_
  · have : f >>> 8 ≤ f := by
      rw [Nat.shiftRight_eq_div_pow]
      exact Nat.div_le_self ..
    omega
  · have := fcstab_lt ((f ^^^ c) &&& 0xff)
    omega

theorem fcsFold_lt (bs : List Nat) : ∀ f, f < 65536 → fcsFold f bs < 65536 := by
  induction bs with
  | nil => intro f hf; exact hf
  | cons b rest ih =>
    intro f hf
    exact ih (PPP_FCS f b) (PPP_FCS_lt f b hf)

theorem fcs_residue (f : Nat) (hf : f < 65536) :
    PPP_FCS (PPP_FCS f ((f ^^^ 0xffffffff) &&& 0xff))
      (((f ^^^ 0xffffffff) >>> 8) &&& 0xff) = PPP_GOODFCS := by
  have hh := shiftRight8_lt f hf
  have hidx1 : (f ^^^ ((f ^^^ 0xffffffff) &&& 0xff)) &&& 0xff = 0xff := by
    rw [Nat.and_xor_distrib_right, Nat.land_assoc,
      show ((0xff : Nat) &&& 0xff) = 0xff by decide,
      Nat.and_xor_distrib_right, show ((0xffffffff : Nat) &&& 0xff) = 0xff by decide,
      Nat.xor_cancel_left]
  have hg : PPP_FCS f ((f ^^^ 0xffffffff) &&& 0xff) = (f >>> 8) ^^^ 0x0f78 := by
    rw [PPP_FCS, hidx1, show fcstab.getD 0xff 0 = 0x0f78 by decide]
  have hb2 : ((f ^^^ 0xffffffff) >>> 8) &&& 0xff = (f >>> 8) ^^^ 0xff := by
    rw [shiftRight_xor_distrib, Nat.and_xor_distrib_right,
      show ((0xffffffff : Nat) >>> 8) &&& 0xff = 0xff by decide,
      and_ff_of_lt _ hh]
  rw [hg, hb2, PPP_FCS]
  have hidx2 : (((f >>> 8) ^^^ 0x0f78) ^^^ ((f >>> 8) ^^^ 0xff)) &&& 0xff = 0x87 := by
    rw [xor_mix, show ((0x0f78 : Nat) ^^^ 0xff) = 0x0f87 by decide]
    decide
  rw [hidx2, show fcstab.getD 0x87 0 = 0xf0b7 by decide]
  have hsh : ((f >>> 8) ^^^ 0x0f78) >>> 8 = 0x0f := by
    rw [shiftRight_xor_distrib, show ((0x0f78 : Nat) >>> 8) = 0x0f by decide]
    have hz : (f >>> 8) >>> 8 = 0 := by
      rw [Nat.shiftRight_eq_div_pow]
      have h28 : (2 : Nat) ^ 8 = 256 := by norm_num
      rw [h28]
      omega
    rw [hz]
    decide
  rw [hsh]
  decide

/-! ## Decoding an escaped stream one logical byte at a time -/

theorem rx_logical_escaped_irrel (ok : Bool) (st : RxState) (e : Bool) (c : Nat) :
    rx_logical ok { st with inEscaped := e } c = rx_logical ok st c := rfl

theorem rx_logical_fields (ok : Bool) (st : RxState) (c : Nat) :
    (rx_logical ok st c).inAccm = st.inAccm ∧
      (rx_logical ok st c).inEscaped = false ∧
      (rx_logical ok st c).nullDeref = st.nullDeref := by
  rw [rx_logical]
  obtain ⟨ha, he, hn, _⟩ := rx_switch_fields ok { st with inEscaped := false } c
  exact ⟨ha, he, hn⟩

theorem rx_escaped_sim (accm : List Nat) (ok : Bool) (hacc : accm_consistent accm) :
    ∀ (bs : List Nat) (st : RxState), st.inAccm = accm → st.inEscaped = false →
      st.nullDeref = false → (∀ b ∈ bs, b < 256) →
      pppos_input ok st (escList accm bs) = bs.foldl (rx_logical ok) st := by
  intro bs
  induction bs with
  | nil => intro st _ _ _ _; rfl
  | cons b rest ih =>
    intro st haccm hesc hnd hb
    have hb0 : b < 256 := hb b (by simp)
    have hsplit : pppos_input ok st (escList accm (b :: rest)) =
        pppos_input ok (List.foldl (pppos_input_byte ok) st (escSeq (some accm) b))
          (escList accm rest) := by
      rw [escList_cons, pppos_input, List.foldl_append]
      rfl
    have hstep : List.foldl (pppos_input_byte ok) st (escSeq (some accm) b) =
        rx_logical ok st b := by
      by_cases hm : escape_p accm b = true
      · rw [show escSeq (some accm) b = [PPP_ESCAPE, b ^^^ PPP_TRANS] by simp [escSeq, hm]]
        have h1 : pppos_input_byte ok st PPP_ESCAPE = { st with inEscaped := true } := by
          rw [pppos_input_byte, if_neg (by rw [hnd]; exact Bool.false_ne_true),
            if_pos (by rw [haccm]; exact hacc.1), if_pos rfl]
        have h2 : pppos_input_byte ok { st with inEscaped := true } (b ^^^ PPP_TRANS) =
            rx_logical ok st b := by
          have hcond1 : ({ st with inEscaped := true } : RxState).nullDeref = false := hnd
          have hcond2 : escape_p ({ st with inEscaped := true } : RxState).inAccm
              (b ^^^ PPP_TRANS) = false := by
            show escape_p st.inAccm (b ^^^ PPP_TRANS) = false
            rw [haccm]; exact hacc.2.2 b hb0 hm
          rw [pppos_input_byte, if_neg (by rw [hcond1]; exact Bool.false_ne_true),
            if_neg (by rw [hcond2]; exact Bool.false_ne_true),
            if_pos (show ({ st with inEscaped := true } : RxState).inEscaped = true from rfl),
            xor_xor_self b PPP_TRANS, rx_logical_escaped_irrel]
        rw [List.foldl_cons, List.foldl_cons, List.foldl_nil, h1, h2]
      · have hm2 : escape_p accm b = false := Bool.eq_false_iff.mpr hm
        rw [show escSeq (some accm) b = [b] by simp [escSeq, hm2]]
        rw [List.foldl_cons, List.foldl_nil, pppos_input_byte,
          if_neg (by rw [hnd]; exact Bool.false_ne_true),
          if_neg (by rw [haccm, hm2]; exact Bool.false_ne_true), hesc]
        rfl
    obtain ⟨ha2, he2, hn2⟩ := rx_logical_fields ok st b
    rw [hsplit, hstep, List.foldl_cons]
    exact ih (rx_logical ok st b) (by rw [ha2]; exact haccm) he2 (by rw [hn2]; exact hnd)
      (fun x hx => hb x (by simp [hx]))

/-! ## Stepping the header through the state switch -/

theorem rxl_address_ff (ok : Bool) (st : RxState) (hst : st.inState = .PDADDRESS) :
    rx_logical ok st PPP_ALLSTATIONS =
      { st with inEscaped := false, inState := .PDCONTROL,
                inFcs := PPP_FCS st.inFcs PPP_ALLSTATIONS } := by
  rw [rx_logical]
  have hsw : rx_switch ok { st with inEscaped := false } PPP_ALLSTATIONS =
      { st with inEscaped := false, inState := .PDCONTROL } := by
    simp [rx_switch, hst, rx_address]
  rw [hsw]

theorem rxl_control_ui (ok : Bool) (st : RxState) (hst : st.inState = .PDCONTROL) :
    rx_logical ok st PPP_UI =
      { st with inEscaped := false, inState := .PDPROTOCOL1,
                inFcs := PPP_FCS st.inFcs PPP_UI } := by
  rw [rx_logical]
  have hsw : rx_switch ok { st with inEscaped := false } PPP_UI =
      { st with inEscaped := false, inState := .PDPROTOCOL1 } := by
    simp [rx_switch, hst, rx_control]
  rw [hsw]

theorem rxl_protocol1_odd (ok : Bool) (st : RxState) (c : Nat)
    (hst : st.inState = .PDPROTOCOL1) (hodd : c &&& 1 = 1) :
    rx_logical ok st c =
      { st with inEscaped := false, inProtocol := c, inState := .PDDATA,
                inFcs := PPP_FCS st.inFcs c } := by
  rw [rx_logical]
  have hsw : rx_switch ok { st with inEscaped := false } c =
      { st with inEscaped := false, inProtocol := c, inState := .PDDATA } := by
    simp [rx_switch, hst, rx_protocol1, hodd]
  rw [hsw]

theorem rxl_protocol1_even (ok : Bool) (st : RxState) (c : Nat)
    (hst : st.inState = .PDPROTOCOL1) (heven : c &&& 1 = 0) :
    rx_logical ok st c =
      { st with inEscaped := false, inProtocol := c <<< 8, inState := .PDPROTOCOL2,
                inFcs := PPP_FCS st.inFcs c } := by
  rw [rx_logical]
  have hsw : rx_switch ok { st with inEscaped := false } c =
      { st with inEscaped := false, inProtocol := c <<< 8, inState := .PDPROTOCOL2 } := by
    simp [rx_switch, hst, rx_protocol1, heven]
  rw [hsw]

theorem rxl_protocol2 (ok : Bool) (st : RxState) (c : Nat)
    (hst : st.inState = .PDPROTOCOL2) :
    rx_logical ok st c =
      { st with inEscaped := false, inProtocol := st.inProtocol ||| c,
                inState := .PDDATA, inFcs := PPP_FCS st.inFcs c } := by
  rw [rx_logical]
  have hsw : rx_switch ok { st with inEscaped := false } c =
      { st with inEscaped := false, inProtocol := st.inProtocol ||| c,
                inState := .PDDATA } := by
    simp [rx_switch, hst]
  rw [hsw]

theorem rxl_address_compressed_odd (ok : Bool) (st : RxState) (c : Nat)
    (hst : st.inState = .PDADDRESS) (hff : c ≠ PPP_ALLSTATIONS) (hui : c ≠ PPP_UI)
    (hodd : c &&& 1 = 1) :
    rx_logical ok st c =
      { st with inEscaped := false, inProtocol := c, inState := .PDDATA,
                inFcs := PPP_FCS st.inFcs c } := by
  rw [rx_logical]
  have hsw : rx_switch ok { st with inEscaped := false } c =
      { st with inEscaped := false, inProtocol := c, inState := .PDDATA } := by
    simp [rx_switch, hst, rx_address, rx_control, rx_protocol1, hff, hui, hodd]
  rw [hsw]

theorem rxl_address_compressed_even (ok : Bool) (st : RxState) (c : Nat)
    (hst : st.inState = .PDADDRESS) (hff : c ≠ PPP_ALLSTATIONS) (hui : c ≠ PPP_UI)
    (heven : c &&& 1 = 0) :
    rx_logical ok st c =
      { st with inEscaped := false, inProtocol := c <<< 8, inState := .PDPROTOCOL2,
                inFcs := PPP_FCS st.inFcs c } := by
  rw [rx_logical]
  have hsw : rx_switch ok { st with inEscaped := false } c =
      { st with inEscaped := false, inProtocol := c <<< 8, inState := .PDPROTOCOL2 } := by
    simp [rx_switch, hst, rx_address, rx_control, rx_protocol1, hff, hui, heven]
  rw [hsw]

theorem rxl_data (st : RxState) (c : Nat) (hst : st.inState = .PDDATA) :
    rx_logical true st c =
      { st with inEscaped := false, bufs := storeByte st.inProtocol c st.bufs,
                inFcs := PPP_FCS st.inFcs c } := by
  rw [rx_logical]
  have hsw : rx_switch true { st with inEscaped := false } c =
      { st with inEscaped := false, bufs := storeByte st.inProtocol c st.bufs } := by
    simp [rx_switch, hst, rx_data]
  rw [hsw]

theorem rx_data_run (ds : List Nat) :
    ∀ st : RxState, st.inState = .PDDATA → st.inEscaped = false →
      ds.foldl (rx_logical true) st =
        { st with inEscaped := false,
                  bufs := ds.foldl (fun b c => storeByte st.inProtocol c b) st.bufs,
                  inFcs := fcsFold st.inFcs ds } := by
  induction ds with
  | nil =>
    intro st hst hesc
    show st = { st with inEscaped := false, bufs := st.bufs, inFcs := st.inFcs }
    obtain ⟨s1, s2, s3, s4, s5, s6, s7, s8, s9, s10, s11, s12⟩ := st
    have hesc2 : s4 = false := hesc
    subst hesc2
    rfl
  | cons c rest ih =>
    intro st hst hesc
    rw [List.foldl_cons, rxl_data st c hst, ih _ (by exact hst) rfl]
    rfl

theorem store_run (p : Nat) (ds : List Nat) (hne : ds ≠ []) :
    BufOk p (ds.foldl (fun b c => storeByte p c b) RxBufs.noBufs) ∧
      ds.foldl (fun b c => storeByte p c b) RxBufs.noBufs ≠ .noBufs ∧
      flattenB (ds.foldl (fun b c => storeByte p c b) RxBufs.noBufs) =
        protoBytes p ++ ds := by
  induction ds using List.reverseRecOn with
  | nil => exact absurd rfl hne
  | append_singleton init c ih =>
    rcases eq_or_ne init [] with rfl | hinit
    · refine ⟨storeByte_BufOk p c .noBufs trivial, storeByte_ne_noBufs p c .noBufs, ?_⟩
      rw [List.nil_append, List.foldl_cons, List.foldl_nil, storeByte_flatten,
        if_pos rfl]
    · obtain ⟨hB, hnb, hfl⟩ := ih hinit
      rw [List.foldl_append]
      refine ⟨storeByte_BufOk p c _ hB, storeByte_ne_noBufs p c _, ?_⟩
      rw [List.foldl_cons, List.foldl_nil, storeByte_flatten, if_neg hnb, hfl,
        List.append_assoc]

theorem rx_header_run (accm : List Nat) (accomp pcomp : Bool) (p : Nat) (ok : Bool)
    (hp : valid_protocol p) :
    (hdrBytes accomp pcomp p).foldl (rx_logical ok) (rx_ready accm) =
      { rx_ready accm with inState := .PDDATA, inProtocol := p,
                           inFcs := fcsFold PPP_INITFCS (hdrBytes accomp pcomp p) } := by
  obtain ⟨hlt, hoddp, hevenp, hex1, hex2, hex3, hex4⟩ := hp
  have hhiv : (p >>> 8) &&& 0xff = p / 256 := by
    rw [and_ff_of_lt _ (shiftRight8_lt p hlt), Nat.shiftRight_eq_div_pow]
  have hlov : p &&& 0xff = p % 256 := and_ff_eq_mod p
  have hhie : ((p >>> 8) &&& 0xff) &&& 1 = 0 := by
    rw [hhiv, Nat.and_one_is_mod]; omega
  have hloo : (p &&& 0xff) &&& 1 = 1 := by
    rw [hlov, Nat.and_one_is_mod]; omega
  have hhiff : (p >>> 8) &&& 0xff ≠ PPP_ALLSTATIONS := by
    rw [hhiv]; show p / 256 ≠ 0xff; omega
  have hhiui : (p >>> 8) &&& 0xff ≠ PPP_UI := by
    rw [hhiv]; show p / 256 ≠ 0x03; omega
  have hreb : ((p >>> 8) &&& 0xff) <<< 8 ||| (p &&& 0xff) = p := proto_rebuild p hlt
  rcases accomp with _ | _ <;>
    by_cases hP : (!pcomp || decide (p > 0xff)) = true
  · have hhdr : hdrBytes false pcomp p =
        [PPP_ALLSTATIONS, PPP_UI, (p >>> 8) &&& 0xff, p &&& 0xff] := by
      simp [hdrBytes, hP]
    have s1 : rx_logical ok (rx_ready accm) PPP_ALLSTATIONS =
        { rx_ready accm with
            inState := .PDCONTROL,
            inFcs := PPP_FCS PPP_INITFCS PPP_ALLSTATIONS } := by
      rw [rxl_address_ff ok _ rfl]
      rfl
    have s2 : rx_logical ok ({ rx_ready accm with
          inState := .PDCONTROL,
          inFcs := PPP_FCS PPP_INITFCS PPP_ALLSTATIONS } : RxState) PPP_UI =
        { rx_ready accm with
            inState := .PDPROTOCOL1,
            inFcs := PPP_FCS (PPP_FCS PPP_INITFCS PPP_ALLSTATIONS) PPP_UI } := by
      rw [rxl_control_ui ok _ rfl]
      rfl
    have s3 : rx_logical ok ({ rx_ready accm with
          inState := .PDPROTOCOL1,
          inFcs := PPP_FCS (PPP_FCS PPP_INITFCS PPP_ALLSTATIONS) PPP_UI } : RxState)
          ((p >>> 8) &&& 0xff) =
        { rx_ready accm with
            inState := .PDPROTOCOL2,
            inProtocol := ((p >>> 8) &&& 0xff) <<< 8,
            inFcs := PPP_FCS (PPP_FCS (PPP_FCS PPP_INITFCS PPP_ALLSTATIONS) PPP_UI)
              ((p >>> 8) &&& 0xff) } := by
      rw [rxl_protocol1_even ok _ _ rfl hhie]
      rfl
    have s4 : rx_logical ok ({ rx_ready accm with
          inState := .PDPROTOCOL2,
          inProtocol := ((p >>> 8) &&& 0xff) <<< 8,
          inFcs := PPP_FCS (PPP_FCS (PPP_FCS PPP_INITFCS PPP_ALLSTATIONS) PPP_UI)
            ((p >>> 8) &&& 0xff) } : RxState) (p &&& 0xff) =
        { rx_ready accm with
            inState := .PDDATA,
            inProtocol := ((p >>> 8) &&& 0xff) <<< 8 ||| (p &&& 0xff),
            inFcs := PPP_FCS (PPP_FCS (PPP_FCS (PPP_FCS PPP_INITFCS PPP_ALLSTATIONS)
              PPP_UI) ((p >>> 8) &&& 0xff)) (p &&& 0xff) } := by
      rw [rxl_protocol2 ok _ _ rfl]
      rfl
    rw [hhdr, List.foldl_cons, s1, List.foldl_cons, s2, List.foldl_cons, s3,
      List.foldl_cons, s4, List.foldl_nil, hreb]
    rfl
  · have hple : p ≤ 0xff := by
      by_contra hgt
      apply hP
      simp only [Bool.or_eq_true, decide_eq_true_eq]
      right; omega
    have hlop : p &&& 0xff = p := by rw [hlov]; omega
    have hhdr : hdrBytes false pcomp p = [PPP_ALLSTATIONS, PPP_UI, p &&& 0xff] := by
      simp [hdrBytes, hP]
    have s1 : rx_logical ok (rx_ready accm) PPP_ALLSTATIONS =
        { rx_ready accm with
            inState := .PDCONTROL,
            inFcs := PPP_FCS PPP_INITFCS PPP_ALLSTATIONS } := by
      rw [rxl_address_ff ok _ rfl]
      rfl
    have s2 : rx_logical ok ({ rx_ready accm with
          inState := .PDCONTROL,
          inFcs := PPP_FCS PPP_INITFCS PPP_ALLSTATIONS } : RxState) PPP_UI =
        { rx_ready accm with
            inState := .PDPROTOCOL1,
            inFcs := PPP_FCS (PPP_FCS PPP_INITFCS PPP_ALLSTATIONS) PPP_UI } := by
      rw [rxl_control_ui ok _ rfl]
      rfl
    have s3 : rx_logical ok ({ rx_ready accm with
          inState := .PDPROTOCOL1,
          inFcs := PPP_FCS (PPP_FCS PPP_INITFCS PPP_ALLSTATIONS) PPP_UI } : RxState)
          (p &&& 0xff) =
        { rx_ready accm with
            inState := .PDDATA,
            inProtocol := p &&& 0xff,
            inFcs := PPP_FCS (PPP_FCS (PPP_FCS PPP_INITFCS PPP_ALLSTATIONS) PPP_UI)
              (p &&& 0xff) } := by
      rw [rxl_protocol1_odd ok _ _ rfl hloo]
      rfl
    rw [hhdr, List.foldl_cons, s1, List.foldl_cons, s2, List.foldl_cons, s3,
      List.foldl_nil, hlop]
    rfl
  · have hhdr : hdrBytes true pcomp p = [(p >>> 8) &&& 0xff, p &&& 0xff] := by
      simp [hdrBytes, hP]
    have s1 : rx_logical ok (rx_ready accm) ((p >>> 8) &&& 0xff) =
        { rx_ready accm with
            inState := .PDPROTOCOL2,
            inProtocol := ((p >>> 8) &&& 0xff) <<< 8,
            inFcs := PPP_FCS PPP_INITFCS ((p >>> 8) &&& 0xff) } := by
      rw [rxl_address_compressed_even ok _ _ rfl hhiff hhiui hhie]
      rfl
    have s2 : rx_logical ok ({ rx_ready accm with
          inState := .PDPROTOCOL2,
          inProtocol := ((p >>> 8) &&& 0xff) <<< 8,
          inFcs := PPP_FCS PPP_INITFCS ((p >>> 8) &&& 0xff) } : RxState) (p &&& 0xff) =
        { rx_ready accm with
            inState := .PDDATA,
            inProtocol := ((p >>> 8) &&& 0xff) <<< 8 ||| (p &&& 0xff),
            inFcs := PPP_FCS (PPP_FCS PPP_INITFCS ((p >>> 8) &&& 0xff)) (p &&& 0xff) } := by
      rw [rxl_protocol2 ok _ _ rfl]
      rfl
    rw [hhdr, List.foldl_cons, s1, List.foldl_cons, s2, List.foldl_nil, hreb]
    rfl
  · have hple : p ≤ 0xff := by
      by_contra hgt
      apply hP
      simp only [Bool.or_eq_true, decide_eq_true_eq]
      right; omega
    have hlop : p &&& 0xff = p := by rw [hlov]; omega
    have hloff : p &&& 0xff ≠ PPP_ALLSTATIONS := by rw [hlop]; show p ≠ 0xff; omega
    have hloui : p &&& 0xff ≠ PPP_UI := by rw [hlop]; show p ≠ 0x03; omega
    have hhdr : hdrBytes true pcomp p = [p &&& 0xff] := by
      simp [hdrBytes, hP]
    have s1 : rx_logical ok (rx_ready accm) (p &&& 0xff) =
        { rx_ready accm with
            inState := .PDDATA,
            inProtocol := p &&& 0xff,
            inFcs := PPP_FCS PPP_INITFCS (p &&& 0xff) } := by
      rw [rxl_address_compressed_odd ok _ _ rfl hloff hloui hloo]
      rfl
    rw [hhdr, List.foldl_cons, s1, List.foldl_nil, hlop]
    rfl

/-! ## C1: round trip -/

theorem rx_deliver (accm : List Nat) (st : RxState)
    (h7e : escape_p accm PPP_FLAG = true) (haccm : st.inAccm = accm)
    (hnd : st.nullDeref = false) (hdata : st.inState = .PDDATA)
    (hfcs : st.inFcs = PPP_GOODFCS) (hbufs : st.bufs ≠ .noBufs) :
    pppos_input_byte true st PPP_FLAG =
      { st with delivered := st.delivered ++ [trimOut st.bufs], bufs := .noBufs,
                inFcs := PPP_INITFCS, inState := .PDADDRESS, inEscaped := false } := by
  rw [pppos_input_byte, if_neg (by rw [hnd]; exact Bool.false_ne_true),
    if_pos (by rw [haccm]; exact h7e),
    if_neg (by decide : ¬(PPP_FLAG = PPP_ESCAPE)), if_pos rfl, rx_flag,
    if_neg (by rw [hdata]; decide), if_neg (by rw [hdata]; decide),
    if_neg (by rw [hfcs]; exact fun h => h rfl)]
  rcases hb : st.bufs with _ | b | ⟨ch, t⟩
  · exact absurd hb hbufs
  · simp [hb]
  · simp [hb]

theorem hdrBytes_lt (accomp pcomp : Bool) (p : Nat) :
    ∀ b ∈ hdrBytes accomp pcomp p, b < 256 := by
  intro b hb
  have hand : (p >>> 8) &&& 0xff < 256 := lt_of_le_of_lt Nat.and_le_right (by norm_num)
  have hand2 : p &&& 0xff < 256 := lt_of_le_of_lt Nat.and_le_right (by norm_num)
  rw [hdrBytes] at hb
  rcases List.mem_append.mp hb with h1 | h2
  · rcases List.mem_append.mp h1 with h3 | h4
    · split at h3
      · simp only [List.mem_cons, List.not_mem_nil, or_false] at h3
        rcases h3 with rfl | rfl <;> norm_num [PPP_ALLSTATIONS, PPP_UI]
      · simp at h3
    · split at h4
      · simp only [List.mem_singleton] at h4
        subst h4
        exact hand
      · simp at h4
  · simp only [List.mem_singleton] at h2
    subst h2
    exact hand2

theorem fcsTrailer_lt (f : Nat) : ∀ b ∈ fcsTrailer f, b < 256 := by
  intro b hb
  rw [fcsTrailer] at hb
  simp only [List.mem_cons, List.not_mem_nil, or_false] at hb
  rcases hb with rfl | rfl <;>
    exact lt_of_le_of_lt Nat.and_le_right (by norm_num)

theorem take_trim (A B : List Nat) (x y : Nat) :
    (A ++ (B ++ [x, y])).take (A.length + B.length) = A ++ B := by
  have h1 : A.length + B.length - A.length = B.length := by omega
  rw [List.take_append_eq_append_take, List.take_of_length_le (by omega), h1,
    List.take_append_eq_append_take, List.take_length, Nat.sub_self, List.take_zero,
    List.append_nil]

/-- C1: with a consistent ACCM shared by TX and RX, a valid PPP protocol
number and byte-valued payload, framing a packet on the netif TX path
(VJ disabled) and feeding the emitted byte stream to pppos_input in its
post-flag ready state delivers exactly one packet to the upper engine,
carrying the protocol number in its two-byte big-endian prefix followed
by exactly the original payload. -/
theorem c1_roundtrip (accomp pcomp idle : Bool) (accm : List Nat) (p : Nat)
    (pb : List (List Nat)) (hacc : accm_consistent accm) (hp : valid_protocol p)
    (hb : ∀ b ∈ pb.flatten, b < 256) :
    ∃ out, (pppos_input true (rx_ready accm)
        (txWire true accomp pcomp accm idle p pb)).delivered = [out] ∧
      flattenC out = protoBytes p ++ pb.flatten := by
  obtain ⟨h7d, h7e, hcons⟩ := hacc
  have hflt : fcsFold PPP_INITFCS (hdrBytes accomp pcomp p ++ pb.flatten) < 65536 :=
    fcsFold_lt _ PPP_INITFCS (by norm_num [PPP_INITFCS])
  have hbytes : ∀ b ∈ hdrBytes accomp pcomp p ++ pb.flatten ++
      fcsTrailer (fcsFold PPP_INITFCS (hdrBytes accomp pcomp p ++ pb.flatten)), b < 256 := by
    intro b hmem
    rcases List.mem_append.mp hmem with h1 | h2
    · rcases List.mem_append.mp h1 with h3 | h4
      · exact hdrBytes_lt accomp pcomp p b h3
      · exact hb b h4
    · exact fcsTrailer_lt _ b h2
  have hflag0 : pppos_input true (rx_ready accm) (if idle then [PPP_FLAG] else []) =
      rx_ready accm := by
    cases idle
    · rfl
    · show pppos_input_byte true (rx_ready accm) PPP_FLAG = rx_ready accm
      have hnd : (rx_ready accm).nullDeref = false := rfl
      have hacm : (rx_ready accm).inAccm = accm := rfl
      rw [pppos_input_byte, if_neg (by rw [hnd]; exact Bool.false_ne_true),
        if_pos (by rw [hacm]; exact h7e),
        if_neg (by decide : ¬(PPP_FLAG = PPP_ESCAPE)), if_pos rfl]
      rfl
  have hsplit : pppos_input true (rx_ready accm)
      (txWire true accomp pcomp accm idle p pb) =
      pppos_input true (pppos_input true
        (pppos_input true (rx_ready accm) (if idle then [PPP_FLAG] else []))
        (escList accm (hdrBytes accomp pcomp p ++ pb.flatten ++
          fcsTrailer (fcsFold PPP_INITFCS (hdrBytes accomp pcomp p ++ pb.flatten)))))
      [PPP_FLAG] := by
    rw [c4_tx_emission accomp pcomp idle accm p pb, pppos_input, List.foldl_append,
      List.foldl_append]
    rfl
  rw [hsplit, hflag0,
    rx_escaped_sim accm true ⟨h7d, h7e, hcons⟩ _ (rx_ready accm) rfl rfl rfl hbytes]
  rw [List.append_assoc, List.foldl_append, rx_header_run accm accomp pcomp p true hp]
  rw [rx_data_run _ _ rfl rfl]
  show ∃ out,
      (pppos_input_byte true
        ({ rx_ready accm with
           inState := .PDDATA,
           inProtocol := p,
           bufs := (pb.flatten ++ fcsTrailer (fcsFold PPP_INITFCS
               (hdrBytes accomp pcomp p ++ pb.flatten))).foldl
             (fun b c => storeByte p c b) RxBufs.noBufs,
           inFcs := fcsFold (fcsFold PPP_INITFCS (hdrBytes accomp pcomp p))
             (pb.flatten ++ fcsTrailer (fcsFold PPP_INITFCS
               (hdrBytes accomp pcomp p ++ pb.flatten))) } : RxState) PPP_FLAG).delivered =
        [out] ∧ flattenC out = protoBytes p ++ pb.flatten
  have hdsne : pb.flatten ++ fcsTrailer (fcsFold PPP_INITFCS
      (hdrBytes accomp pcomp p ++ pb.flatten)) ≠ [] := by
    rw [fcsTrailer]
    simp
  set mkB := (pb.flatten ++ fcsTrailer (fcsFold PPP_INITFCS
      (hdrBytes accomp pcomp p ++ pb.flatten))).foldl
    (fun b c => storeByte p c b) RxBufs.noBufs with hmkB
  obtain ⟨hB, hnb, hflB⟩ := store_run p _ hdsne
  have hgood : fcsFold (fcsFold PPP_INITFCS (hdrBytes accomp pcomp p))
      (pb.flatten ++ fcsTrailer (fcsFold PPP_INITFCS
        (hdrBytes accomp pcomp p ++ pb.flatten))) = PPP_GOODFCS := by
    have hstep : fcsFold (fcsFold PPP_INITFCS (hdrBytes accomp pcomp p)) pb.flatten =
        fcsFold PPP_INITFCS (hdrBytes accomp pcomp p ++ pb.flatten) :=
      (fcsFold_append _ _ _).symm
    rw [fcsFold_append, hstep, fcsTrailer, fcsFold, List.foldl_cons, List.foldl_cons,
      List.foldl_nil]
    exact fcs_residue _ hflt
  rw [rx_deliver accm _ h7e rfl rfl rfl (by exact hgood) (by exact hnb)]
  obtain ⟨hone, htot, hflat⟩ := trimOut_spec p mkB (by exact hnb) (by exact hB)
  refine ⟨trimOut mkB, rfl, ?_⟩
  have hflB2 : flattenB mkB = protoBytes p ++ (pb.flatten ++ fcsTrailer
      (fcsFold PPP_INITFCS (hdrBytes accomp pcomp p ++ pb.flatten))) := by exact hflB
  have hsl : storedLen mkB - 2 = (protoBytes p).length + pb.flatten.length := by
    rw [storedLen, hflB2, fcsTrailer]
    simp [protoBytes]
    omega
  rw [hflat, hflB2, hsl, fcsTrailer]
  exact take_trim (protoBytes p) pb.flatten _ _

theorem c1_witness :
    accm_consistent accmDefault ∧ valid_protocol 0xc021 ∧
      (∀ b ∈ ([[0x09, 0x01, 0x00, 0x04]] : List (List Nat)).flatten, b < 256) ∧
      ∃ out, (pppos_input true (rx_ready accmDefault)
          (txWire true false false accmDefault true 0xc021
            [[0x09, 0x01, 0x00, 0x04]])).delivered = [out] ∧
        flattenC out = protoBytes 0xc021 ++
          ([[0x09, 0x01, 0x00, 0x04]] : List (List Nat)).flatten :=
  ⟨⟨by decide, by decide, by decide⟩, by decide, by decide,
    c1_roundtrip false false true accmDefault 0xc021 [[0x09, 0x01, 0x00, 0x04]]
      ⟨by decide, by decide, by decide⟩ (by decide) (by decide)⟩

end Pppos
